import Mathlib

/-!
Verification development for the cargo stowage system
(backend/app/services of the ISS_AI repository).

The Python services are shallowly embedded as executable Lean functions.
Coordinates, dimensions and timestamps are modelled as integers (the spec
discretizes all coordinates to 1 cm and timestamps are compared at day
granularity); masses are modelled as rationals.  A Python `list.sort`
(stable, total-preorder key) is modelled by `List.insertionSort`, which is
also stable, hence produces the identical list.  A numpy boolean occupancy
array is modelled by the list of (unclipped) marked regions: a query
region that lies inside the array hits an occupied cell iff it meets one
of the marked regions as integer boxes.
-/

namespace StowCore

/-- An axis-aligned integer box: origin (x,y,z) and extents (w,d,h).
Cells covered are [x, x+w) × [y, y+d) × [z, z+h). -/
structure Box where
  x : Int
  y : Int
  z : Int
  w : Int
  d : Int
  h : Int
deriving Repr, DecidableEq

/-- A resolved numpy index region: the cell set
[x1, x2) × [y1, y2) × [z1, z2) of a slice triple, after Python slice
semantics (negative stops wrap, everything is clamped to the array). -/
structure Region where
  x1 : Int
  x2 : Int
  y1 : Int
  y2 : Int
  z1 : Int
  z2 : Int
deriving Repr, DecidableEq

/-- The stop index of the Python slice `lo : lo + ext` on an axis of length
`len`: a negative raw stop counts from the end, and the result is clamped
to the axis. -/
def sliceStop (len lo ext : Int) : Int :=
  let stop := lo + ext
  let stop := if stop < 0 then len + stop else stop
  min stop len

/-- The cell region selected by `space[i:i+w, j:j+d, k:k+h]` on an array of
shape (lenX, lenY, lenZ), for non-negative start indices. -/
def sliceRegion (lenX lenY lenZ : Int) (pos ext : Int × Int × Int) : Region :=
  { x1 := min pos.1 lenX, x2 := sliceStop lenX pos.1 ext.1,
    y1 := min pos.2.1 lenY, y2 := sliceStop lenY pos.2.1 ext.2.1,
    z1 := min pos.2.2 lenZ, z2 := sliceStop lenZ pos.2.2 ext.2.2 }

/-- Two cell regions share a cell iff they strictly overlap on all axes. -/
def regionsIntersect (a b : Region) : Bool :=
  (max a.x1 b.x1 < min a.x2 b.x2) && (max a.y1 b.y1 < min a.y2 b.y2) &&
  (max a.z1 b.z1 < min a.z2 b.z2)

/-- `np.any(space[region])`: does the query region meet any marked region? -/
def regionOccupied (space : List Region) (r : Region) : Bool :=
  space.any (fun m => regionsIntersect m r)

/-- Modelled from the spec: `supports(Bsup, Babove)` — `Bsup.z+Bsup.h == Babove.z`
and the xy-projections overlap with area at least half of Babove's footprint
(the comparison is doubled to stay in integer arithmetic). -/
def specSupports (bsup babove : Box) : Bool :=
  (bsup.z + bsup.h = babove.z) &&
  (2 * ((min (bsup.x + bsup.w) (babove.x + babove.w) - max bsup.x babove.x)
        * (min (bsup.y + bsup.d) (babove.y + babove.d) - max bsup.y babove.y))
     ≥ babove.w * babove.d
   && (max bsup.x babove.x < min (bsup.x + bsup.w) (babove.x + babove.w))
   && (max bsup.y babove.y < min (bsup.y + bsup.d) (babove.y + babove.d)))

/-- Modelled from the spec: strict lexicographic order on (z, y, x) —
the origin-scan order the specification prescribes for `first_fit`. -/
def zyxLt (p q : Int × Int × Int) : Bool :=
  (p.2.2 < q.2.2) ||
  (p.2.2 = q.2.2 && (p.2.1 < q.2.1 || (p.2.1 = q.2.1 && p.1 < q.1)))

/-- Lexicographic (x, y, z) order, reflexive version: the order in which the
source's triple loop in `_find_position_in_container` actually emits origins
(outer loop x, middle y, inner z). -/
def xyzLe (p q : Int × Int × Int) : Prop :=
  p.1 < q.1 ∨ (p.1 = q.1 ∧ (p.2.1 < q.2.1 ∨ (p.2.1 = q.2.1 ∧ p.2.2 ≤ q.2.2)))

/-- Strict lexicographic (x, y, z) order on origins. -/
def xyzLt (p q : Int × Int × Int) : Prop :=
  p.1 < q.1 ∨ (p.1 = q.1 ∧ (p.2.1 < q.2.1 ∨ (p.2.1 = q.2.1 ∧ p.2.2 < q.2.2)))

instance : DecidableRel xyzLe := fun p q => by unfold xyzLe; infer_instance
instance : DecidableRel xyzLt := fun p q => by unfold xyzLt; infer_instance

/-- Is the triple `a` a permutation of the triple `b`? (base-dimension
permutation check used to state the orientation invariant). -/
def isPermTriple (a b : Int × Int × Int) : Bool :=
  decide (Multiset.ofList [a.1, a.2.1, a.2.2] = Multiset.ofList [b.1, b.2.1, b.2.2])

/-! ## Request-side data (models/schemas.py) -/

/-- schemas.Coordinates (fields width/depth/height). -/
structure Coordinates where
  width : Int
  depth : Int
  height : Int
deriving Repr, DecidableEq

/-- schemas.Position. -/
structure Position where
  startCoordinates : Coordinates
  endCoordinates : Coordinates
deriving Repr, DecidableEq

/-- schemas.ItemBase — an item as it arrives in a placement request. -/
structure ItemB where
  itemId : String
  name : String
  width : Int
  depth : Int
  height : Int
  priority : Int
  expiryDate : Option Int
  usageLimit : Int
  preferredZone : String
deriving Repr, DecidableEq

/-- schemas.ContainerBase. -/
structure ContainerB where
  containerId : String
  zone : String
  width : Int
  depth : Int
  height : Int
deriving Repr, DecidableEq

/-- schemas.PlacementItem. -/
structure PlacementItem where
  itemId : String
  containerId : String
  position : Position
deriving Repr, DecidableEq

/-- schemas.RearrangementStep. -/
structure RearrangementStep where
  step : Int
  action : String
  itemId : String
  fromContainer : String
  fromPosition : Position
  toContainer : String
  toPosition : Position
deriving Repr, DecidableEq

/-! ## PlacementService internal state -/

/-- The internal item dictionary produced by
`PlacementService._convert_item_to_internal`. -/
structure ItemData where
  itemId : String
  name : String
  width : Int
  depth : Int
  height : Int
  priority : Int
  expiryDate : Option Int
  usageLimit : Int
  preferredZone : String
  placed : Bool
deriving Repr, DecidableEq

/-- An entry of a container's `items` list
(appended by `_update_container_space`). -/
structure PlacedRec where
  itemId : String
  pos : Int × Int × Int
  width : Int
  depth : Int
  height : Int
deriving Repr, DecidableEq

/-- The internal container dictionary of
`PlacementService._convert_container_to_internal`; `space` is the list of
regions marked occupied in the numpy array. -/
structure ContainerData where
  containerId : String
  zone : String
  width : Int
  depth : Int
  height : Int
  space : List Region
  items : List PlacedRec
deriving Repr, DecidableEq

/-- `_convert_item_to_internal`. -/
def convertItemToInternal (it : ItemB) : ItemData :=
  { itemId := it.itemId, name := it.name, width := it.width, depth := it.depth,
    height := it.height, priority := it.priority, expiryDate := it.expiryDate,
    usageLimit := it.usageLimit, preferredZone := it.preferredZone, placed := false }

/-- `_convert_container_to_internal`.  `np.zeros((int(W), int(D), int(H)))`
raises `ValueError` on a negative dimension, which is modelled as the
error case. -/
def convertContainerToInternal (c : ContainerB) : Except String ContainerData :=
  if c.width < 0 ∨ c.depth < 0 ∨ c.height < 0 then
    .error "negative dimensions are not allowed"
  else
    .ok { containerId := c.containerId, zone := c.zone, width := c.width,
          depth := c.depth, height := c.height, space := [], items := [] }

/-- Insertion into the `containers_data` Python dict keyed by containerId:
a duplicate key overwrites the stored value but keeps the first insertion
position. -/
def dictInsert (l : List ContainerData) (c : ContainerData) : List ContainerData :=
  if l.any (fun x => x.containerId = c.containerId) then
    l.map (fun x => if x.containerId = c.containerId then c else x)
  else
    l ++ [c]

/-- Worker for the `containers_data` dict comprehension of `place_items`:
convert each container in order, inserting into the dict. -/
def buildContainersDictAux (acc : List ContainerData) :
    List ContainerB → Except String (List ContainerData)
  | [] => .ok acc
  | c :: cs =>
    match convertContainerToInternal c with
    | .error e => .error e
    | .ok cd => buildContainersDictAux (dictInsert acc cd) cs

/-- The `containers_data` dict comprehension of `place_items`. -/
def buildContainersDict (cs : List ContainerB) : Except String (List ContainerData) :=
  buildContainersDictAux [] cs

/-- The six candidate orientations tried by `_find_position_in_container`,
in source order. -/
def orientationsOf (it : ItemData) : List (Int × Int × Int) :=
  [(it.width, it.depth, it.height),
   (it.depth, it.width, it.height),
   (it.width, it.height, it.depth),
   (it.height, it.width, it.depth),
   (it.depth, it.height, it.width),
   (it.height, it.depth, it.width)]

/-- Python's `range(n)` as a list of integers `0, …, n−1`. -/
def intRange (n : Int) : List Int :=
  (List.range n.toNat).map Int.ofNat

/-- The origins visited by the triple loop
`for i in range(W-w+1): for j in range(D-d+1): for k in range(H-h+1)`,
in visiting order (x outermost, z innermost). -/
def scanOrigins (bigW bigD bigH w d h : Int) : List (Int × Int × Int) :=
  (intRange (bigW - w + 1)).flatMap (fun i =>
    (intRange (bigD - d + 1)).flatMap (fun j =>
      (intRange (bigH - h + 1)).map (fun k => (i, j, k))))

/-- One iteration of the orientation loop of `_find_position_in_container`:
skip the orientation if it exceeds the container, otherwise return the
first origin whose region is entirely free. -/
def tryOrientation (c : ContainerData) (o : Int × Int × Int) :
    Option (Int × Int × Int) :=
  if o.1 > c.width ∨ o.2.1 > c.depth ∨ o.2.2 > c.height then none
  else
    (scanOrigins c.width c.depth c.height o.1 o.2.1 o.2.2).find? (fun q =>
      !(regionOccupied c.space (sliceRegion c.width c.depth c.height q o)))

/-- `PlacementService._find_position_in_container`: try the six orientations
in order, return the first position found.  Note that the caller receives
only the position — the orientation that produced it is discarded. -/
def findPositionInContainer (it : ItemData) (c : ContainerData) :
    Option (Int × Int × Int) :=
  (orientationsOf it).findSome? (tryOrientation c)

/-- `PlacementService._update_container_space`: mark the region given by the
position and the item's *base* dimensions, and append the item record. -/
def updateContainerSpace (c : ContainerData) (pos : Int × Int × Int)
    (it : ItemData) : ContainerData :=
  { c with
    space := c.space ++
      [sliceRegion c.width c.depth c.height pos (it.width, it.depth, it.height)],
    items := c.items ++ [{ itemId := it.itemId, pos := pos,
                           width := it.width, depth := it.depth, height := it.height }] }

/-- Replace (by containerId) the updated container in the dict. -/
def dictUpdate (l : List ContainerData) (c : ContainerData) : List ContainerData :=
  l.map (fun x => if x.containerId = c.containerId then c else x)

/-- Items sorted by priority descending (`items_data.sort(key=priority,
reverse=True)`, a stable sort). -/
def sortItemsByPriorityDesc (l : List ItemData) : List ItemData :=
  l.insertionSort (fun a b => b.priority ≤ a.priority)

/-- Candidate containers sorted by declared volume descending (stable). -/
def sortContainersByVolumeDesc (l : List ContainerData) : List ContainerData :=
  l.insertionSort (fun a b =>
    b.width * b.depth * b.height ≤ a.width * a.depth * a.height)

/-- A zero position, used by the source to fill unused step fields. -/
def zeroPosition : Position :=
  ⟨⟨0, 0, 0⟩, ⟨0, 0, 0⟩⟩

/-- Position of a placement: start at `pos`, end at `pos` + base dimensions. -/
def positionFor (pos : Int × Int × Int) (w d h : Int) : Position :=
  ⟨⟨pos.1, pos.2.1, pos.2.2⟩, ⟨pos.1 + w, pos.2.1 + d, pos.2.2 + h⟩⟩

/-- The three rearrangement steps emitted by `_try_rearrangement` on success:
remove the victim, place the new item where it was, place the victim in the
alternative container. -/
def rearrangementStepsFor (victim : ItemData) (victimRec : PlacedRec)
    (containerId : String) (item : ItemData) (newPos : Int × Int × Int)
    (altId : String) (altPos : Int × Int × Int) : List RearrangementStep :=
  [{ step := 1, action := "remove", itemId := victim.itemId,
     fromContainer := containerId,
     fromPosition := positionFor victimRec.pos victimRec.width victimRec.depth victimRec.height,
     toContainer := "", toPosition := zeroPosition },
   { step := 2, action := "place", itemId := item.itemId,
     fromContainer := "", fromPosition := zeroPosition,
     toContainer := containerId,
     toPosition := positionFor newPos item.width item.depth item.height },
   { step := 3, action := "place", itemId := victim.itemId,
     fromContainer := "", fromPosition := zeroPosition,
     toContainer := altId,
     toPosition := positionFor altPos victim.width victim.depth victim.height }]

/-- Clearing the victim's region in the bitmap and dropping its record
(the `space[...] = False` / `items.remove` pair in `_try_rearrangement`). -/
def removeFromContainer (c : ContainerData) (r : PlacedRec) : ContainerData :=
  { c with
    space := c.space.erase
      (sliceRegion c.width c.depth c.height r.pos (r.width, r.depth, r.height)),
    items := c.items.erase r }

/-- The body of `_try_rearrangement` for a single victim: locate the victim's
container, take it out, retry the new item there and re-home the victim in a
different container.  On total failure the victim is restored and the next
victim is tried (in the source the restore leaves any partial marking of the
new item behind; the branch is unreachable — see `tryRearrangement`). -/
def tryVictim (item : ItemData) (dict : List ContainerData) (victim : ItemData) :
    Option (List RearrangementStep × PlacementItem × List ContainerData) := do
  let (cont, rec0) ← dict.findSome? (fun c =>
    (c.items.find? (fun r => r.itemId = victim.itemId)).map (fun r => (c, r)))
  let cont1 := removeFromContainer cont rec0
  let dict1 := dictUpdate dict cont1
  match findPositionInContainer item cont1 with
  | none => none
  | some newPos =>
    let placement : PlacementItem :=
      { itemId := item.itemId, containerId := cont1.containerId,
        position := positionFor newPos item.width item.depth item.height }
    let cont2 := updateContainerSpace cont1 newPos item
    let dict2 := dictUpdate dict1 cont2
    match dict2.findSome? (fun alt =>
        if alt.containerId ≠ cont.containerId then
          (findPositionInContainer victim alt).map (fun p => (alt, p))
        else none) with
    | some (alt, altPos) =>
      let steps := rearrangementStepsFor victim rec0 cont.containerId item newPos
        alt.containerId altPos
      let alt2 := updateContainerSpace alt altPos victim
      some (steps, placement, dictUpdate dict2 alt2)
    | none => none

/-- `PlacementService._try_rearrangement`.  The victim pool is filtered on
`i["placed"]`, a flag the service initializes to `False` and never sets, so
the pool is always empty and the function always returns `none`; the body is
kept so the translation stays complete. -/
def tryRearrangement (item : ItemData) (dict : List ContainerData)
    (allItems : List ItemData) :
    Option (List RearrangementStep × PlacementItem × List ContainerData) :=
  let lower := allItems.filter (fun i => i.priority < item.priority && i.placed)
  if lower.isEmpty then none
  else
    let lowerSorted := lower.insertionSort (fun a b => a.priority ≤ b.priority)
    lowerSorted.findSome? (tryVictim item dict)

/-- The per-item body of the main loop of `place_items`: preferred-zone
candidates (falling back to all containers), sorted by volume descending,
first container in which a position is found wins; otherwise rearrangement
is attempted. -/
def placeOneItem (allItems : List ItemData)
    (st : List PlacementItem × List RearrangementStep × List ContainerData)
    (item : ItemData) :
    List PlacementItem × List RearrangementStep × List ContainerData :=
  let (placements, rearrangements, dict) := st
  let preferred := dict.filter (fun c => c.zone = item.preferredZone)
  let candidates := if preferred.isEmpty then dict else preferred
  let candidates := sortContainersByVolumeDesc candidates
  match candidates.findSome? (fun c =>
      (findPositionInContainer item c).map (fun p => (c, p))) with
  | some (c, pos) =>
    let placement : PlacementItem :=
      { itemId := item.itemId, containerId := c.containerId,
        position := positionFor pos item.width item.depth item.height }
    (placements ++ [placement], rearrangements,
     dictUpdate dict (updateContainerSpace c pos item))
  | none =>
    match tryRearrangement item dict allItems with
    | some (steps, placement, dict2) =>
      (placements ++ [placement], rearrangements ++ steps, dict2)
    | none => (placements, rearrangements, dict)

/-- `PlacementService.place_items`: convert, sort by priority descending,
place each item in turn.  The only exception the service can raise comes
from allocating a container's occupancy array with a negative dimension
(`np.zeros` in `_convert_container_to_internal`); database writes are
wrapped in try/except by the source and cannot raise. -/
def placeItems (reqItems : List ItemB) (reqContainers : List ContainerB) :
    Except String (List PlacementItem × List RearrangementStep) :=
  let itemsData := reqItems.map convertItemToInternal
  match buildContainersDict reqContainers with
  | .error e => .error e
  | .ok dict =>
    let sorted := sortItemsByPriorityDesc itemsData
    let (placements, rearrangements, _) :=
      sorted.foldl (placeOneItem sorted) ([], [], dict)
    .ok (placements, rearrangements)

/-! ## Persisted entities (models/database.py)

An item row always sets `container_id` and the three `position_*` columns
together (the placement service writes all four, retrieval clears all four),
so they are bundled into one optional `DBPlacement`.  Timestamps and expiry
instants are whole days; a request timestamp is `Option Int`, where `none`
stands for a string `datetime.fromisoformat` fails to parse. -/

/-- A stored placement: owning container and origin coordinates. -/
structure DBPlacement where
  containerId : String
  posW : Int
  posD : Int
  posH : Int
deriving Repr, DecidableEq

/-- An item row. -/
structure DBItem where
  id : String
  name : String
  width : Int
  depth : Int
  height : Int
  mass : Rat
  priority : Int
  expiryDate : Option Int
  usageLimit : Int
  remainingUses : Int
  isWaste : Bool
  placement : Option DBPlacement
deriving Repr, DecidableEq

/-- A container row. -/
structure DBContainer where
  id : String
  zone : String
  width : Int
  depth : Int
  height : Int
deriving Repr, DecidableEq

/-- A log row. -/
structure LogRec where
  timestamp : Int
  userId : String
  actionType : String
  itemId : String
  fromContainer : Option String
  toContainer : Option String
  details : String
deriving Repr, DecidableEq

/-- The persisted state the services read and write. -/
structure DB where
  items : List DBItem
  containers : List DBContainer
  logs : List LogRec
deriving Repr, DecidableEq

/-- schemas.RetrievalStep. -/
structure RetrievalStep where
  step : Nat
  action : String
  itemId : String
  itemName : String
deriving Repr, DecidableEq

/-- schemas.SearchItem. -/
structure SearchItem where
  itemId : String
  name : String
  containerId : String
  zone : String
  position : Position
deriving Repr, DecidableEq

/-- SQLAlchemy's `query(...).first()` followed by in-place mutation: update
the first row matching the predicate. -/
def updateFirstBy (p : α → Bool) (f : α → α) : List α → List α
  | [] => []
  | a :: l => if p a then f a :: l else a :: updateFirstBy p f l

/-- The container id of an item's placement, `None` when unplaced. -/
def containerIdOf (i : DBItem) : Option String :=
  i.placement.map (fun p => p.containerId)

/-- Position depth of a placed item (callers only use it on placed items). -/
def posDepthOf (i : DBItem) : Int :=
  match i.placement with
  | some p => p.posD
  | none => 0

/-- The filter of `_calculate_retrieval_steps` selecting blockers: the other
item sits strictly in front (smaller depth) and its width/height projection
strictly overlaps the target's. -/
def isBlockerOf (tp : DBPlacement) (target : DBItem) (o : DBItem) : Bool :=
  match o.placement with
  | some op =>
    op.posD < tp.posD &&
    op.posW < tp.posW + target.width && op.posW + o.width > tp.posW &&
    op.posH < tp.posH + target.height && op.posH + o.height > tp.posH
  | none => false

/-- The single predicate equivalent to the two successive filters of
`_calculate_retrieval_steps` (same container, different id, blocking). -/
def blockerPred (tp : DBPlacement) (target : DBItem) (o : DBItem) : Bool :=
  (containerIdOf o = some tp.containerId) && (o.id ≠ target.id) &&
    isBlockerOf tp target o

/-- The blocking items of the target, sorted by depth ascending
(`blocking_items.sort(key=position_depth)`, stable). -/
def sortedBlockersOf (tp : DBPlacement) (target : DBItem)
    (dbItems : List DBItem) : List DBItem :=
  (dbItems.filter (blockerPred tp target)).insertionSort
    (fun a b => posDepthOf a ≤ posDepthOf b)

/-- The `remove`/`setAside` pairs emitted for the sorted blockers, with the
source's step counters (`i+1` and `i+2` for the `i`-th blocker). -/
def removePairsOf (blockers : List DBItem) : List RetrievalStep :=
  blockers.enum.flatMap (fun ib =>
    [{ step := ib.1 + 1, action := "remove",
       itemId := ib.2.id, itemName := ib.2.name },
     { step := ib.1 + 2, action := "setAside",
       itemId := ib.2.id, itemName := ib.2.name }])

/-- The `placeBack` steps emitted for the blockers in reverse order,
numbered consecutively from `base + 1`. -/
def placeBacksOf (base : Nat) (blockers : List DBItem) : List RetrievalStep :=
  blockers.reverse.enum.map (fun ib =>
    { step := base + 1 + ib.1, action := "placeBack",
      itemId := ib.2.id, itemName := ib.2.name })

/-- `RetrievalService._calculate_retrieval_steps`.  An item flush with the
front face (depth 0) needs a single `retrieve` step; otherwise the direct
blockers are removed front-to-back as `remove`/`setAside` pairs, the target
is retrieved, and the blockers are placed back in reverse order. -/
def calcRetrievalSteps (target : DBItem) (dbItems : List DBItem) :
    List RetrievalStep :=
  match target.placement with
  | none => []
  | some tp =>
    if tp.posD = 0 then
      [{ step := 1, action := "retrieve", itemId := target.id, itemName := target.name }]
    else
      let blockers := sortedBlockersOf tp target dbItems
      let pairs := removePairsOf blockers
      let retrieveStep : RetrievalStep :=
        { step := pairs.length + 1, action := "retrieve",
          itemId := target.id, itemName := target.name }
      let placeBacks := placeBacksOf (pairs.length + 1) blockers
      pairs ++ [retrieveStep] ++ placeBacks

/-- One step of the candidate loop in `RetrievalService.find_item`: keep the
candidate with fewer retrieval steps; on an exact tie keep the one with the
earlier expiry date (a candidate without an expiry date never displaces the
incumbent on a tie). -/
def chooseBest (dbItems : List DBItem) (acc : Option (DBItem × Nat))
    (it : DBItem) : Option (DBItem × Nat) :=
  if (containerIdOf it).isNone then acc
  else
    let steps := (calcRetrievalSteps it dbItems).length
    match acc with
    | none => some (it, steps)
    | some (b, ms) =>
      if steps < ms then some (it, steps)
      else if steps = ms then
        match it.expiryDate with
        | none => some (b, ms)
        | some e =>
          match b.expiryDate with
          | none => some (it, ms)
          | some be => if e < be then some (it, ms) else some (b, ms)
      else some (b, ms)

/-- The expiry date as an extended integer, `⊤` when absent: the candidate
loop of `find_item` never lets an expiry-free candidate displace the
incumbent on a step tie, and any dated candidate beats an undated
incumbent. -/
def expTop (i : DBItem) : WithTop Int :=
  match i.expiryDate with
  | some e => (e : WithTop Int)
  | none => ⊤

/-- The selection key of the candidate loop of `find_item`: number of
retrieval steps, then expiry (absent = latest). -/
def searchKey (dbItems : List DBItem) (i : DBItem) : Nat × WithTop Int :=
  ((calcRetrievalSteps i dbItems).length, expTop i)

/-- Strict lexicographic comparison of selection keys. -/
def keyLt (a b : Nat × WithTop Int) : Prop :=
  a.1 < b.1 ∨ (a.1 = b.1 ∧ a.2 < b.2)

instance : DecidableRel keyLt := fun a b => by unfold keyLt; infer_instance

/-- `RetrievalService.find_item`: query by id or by name, pick the best
candidate among those placed in a container, look its container up and
return the found flag, the item snapshot and the retrieval plan. -/
def findItem (db : DB) (itemId : Option String) (itemName : Option String) :
    Bool × Option SearchItem × List RetrievalStep :=
  match itemId, itemName with
  | none, none => (false, none, [])
  | _, _ =>
    let queried : List DBItem := match itemId with
      | some iid => db.items.filter (fun i => i.id = iid)
      | none => db.items.filter (fun i => some i.name = itemName)
    if queried.isEmpty then (false, none, [])
    else
      match queried.foldl (chooseBest db.items) none with
      | none => (false, none, [])
      | some (best, _) =>
        match best.placement with
        | none => (false, none, [])
        | some bp =>
          match db.containers.find? (fun c => c.id = bp.containerId) with
          | none => (false, none, [])
          | some cont =>
            let snapshot : SearchItem :=
              { itemId := best.id, name := best.name, containerId := cont.id,
                zone := cont.zone,
                position :=
                  ⟨⟨bp.posW, bp.posD, bp.posH⟩,
                   ⟨bp.posW + best.width, bp.posD + best.depth,
                    bp.posH + best.height⟩⟩ }
            (true, some snapshot, calcRetrievalSteps best db.items)

/-- The item-row update performed by `RetrievalService.retrieve_item`:
decrement `remaining_uses` when positive, mark as waste when the count is
zero afterwards, clear the placement. -/
def retrieveUpdate (i : DBItem) : DBItem :=
  let uses := if i.remainingUses > 0 then i.remainingUses - 1 else i.remainingUses
  { i with remainingUses := uses,
           isWaste := if uses = 0 then true else i.isWaste,
           placement := none }

/-- `RetrievalService.retrieve_item`: parse the timestamp, find the item,
apply `retrieveUpdate` and append one retrieval log record. -/
def retrieveItem (db : DB) (itemId userId : String) (ts : Option Int) :
    Bool × DB :=
  match ts with
  | none => (false, db)
  | some t =>
    match db.items.find? (fun i => i.id = itemId) with
    | none => (false, db)
    | some item =>
      let log : LogRec :=
        { timestamp := t, userId := userId, actionType := "retrieval",
          itemId := itemId, fromContainer := containerIdOf item,
          toContainer := none,
          details := "Retrieved item " ++ item.name }
      (true,
       { db with
         items := updateFirstBy (fun i => i.id = itemId) retrieveUpdate db.items,
         logs := db.logs ++ [log] })

/-- The overlap filter of `RetrievalService.place_item`: another item of the
same container whose stored box strictly overlaps the requested position on
all three axes. -/
def overlapsRequested (containerId : String) (itemId : String) (pos : Position)
    (o : DBItem) : Bool :=
  match o.placement with
  | some op =>
    op.containerId = containerId && o.id ≠ itemId &&
    op.posW < pos.endCoordinates.width &&
    op.posW + o.width > pos.startCoordinates.width &&
    op.posD < pos.endCoordinates.depth &&
    op.posD + o.depth > pos.startCoordinates.depth &&
    op.posH < pos.endCoordinates.height &&
    op.posH + o.height > pos.startCoordinates.height
  | none => false

/-- The item-row update performed by `RetrievalService.place_item`: set the
placement to the requested start coordinates and overwrite the stored
dimensions with `endCoordinates − startCoordinates`. -/
def placeUpdate (containerId : String) (pos : Position) (i : DBItem) : DBItem :=
  { i with
    placement := some { containerId := containerId,
                        posW := pos.startCoordinates.width,
                        posD := pos.startCoordinates.depth,
                        posH := pos.startCoordinates.height },
    width := pos.endCoordinates.width - pos.startCoordinates.width,
    depth := pos.endCoordinates.depth - pos.startCoordinates.depth,
    height := pos.endCoordinates.height - pos.startCoordinates.height }

/-- `RetrievalService.place_item`: timestamp, item and container must exist,
the requested box must lie inside the container and overlap no other item;
then the item is moved there, its dimensions are overwritten with
`end − start`, and one placement log record is appended. -/
def placeItem (db : DB) (itemId userId : String) (ts : Option Int)
    (containerId : String) (pos : Position) : Bool × DB :=
  match ts with
  | none => (false, db)
  | some t =>
    match db.items.find? (fun i => i.id = itemId) with
    | none => (false, db)
    | some item =>
      match db.containers.find? (fun c => c.id = containerId) with
      | none => (false, db)
      | some cont =>
        if pos.startCoordinates.width < 0 ∨ pos.startCoordinates.depth < 0 ∨
            pos.startCoordinates.height < 0 ∨
            pos.endCoordinates.width > cont.width ∨
            pos.endCoordinates.depth > cont.depth ∨
            pos.endCoordinates.height > cont.height then
          (false, db)
        else if (db.items.filter (overlapsRequested containerId itemId pos)) ≠ [] then
          (false, db)
        else
          let log : LogRec :=
            { timestamp := t, userId := userId, actionType := "placement",
              itemId := itemId, fromContainer := containerIdOf item,
              toContainer := some containerId,
              details := "Placed item " ++ item.name }
          (true,
           { db with
             items := updateFirstBy (fun i => i.id = itemId)
               (placeUpdate containerId pos) db.items,
             logs := db.logs ++ [log] })

/-! ## SimulationService (simulation_service.py) -/

/-- schemas.SimulationItem: `itemId` is a required string (the empty string
is falsy in the source), `name` an optional fallback. -/
structure SimUsage where
  itemId : String
  name : Option String
deriving Repr, DecidableEq

/-- schemas.SimulationItemStatus. -/
structure SimStatus where
  itemId : String
  name : String
  remainingUses : Option Int
deriving Repr, DecidableEq

/-- The row predicate used to look a usage entry up (by id, else by name). -/
def usageTargetPred (u : SimUsage) : Option (DBItem → Bool) :=
  if u.itemId ≠ "" then some (fun i => i.id = u.itemId)
  else
    match u.name with
    | some nm => if nm ≠ "" then some (fun i => i.name = nm) else none
    | none => none

/-- The row update for one usage: decrement and mark as waste on depletion
(the caller only applies it when `remaining_uses > 0`). -/
def usageUpdate (i : DBItem) : DBItem :=
  let uses := i.remainingUses - 1
  { i with remainingUses := uses,
           isWaste := if uses = 0 then true else i.isWaste }

/-- Process one entry of `items_to_be_used_per_day` within a simulated day:
find the item, decrement its remaining uses when positive, record the usage
and a depletion when the count hits zero. -/
def applyUsage (acc : List DBItem × List SimStatus × List SimStatus)
    (u : SimUsage) : List DBItem × List SimStatus × List SimStatus :=
  let (items, used, depleted) := acc
  match usageTargetPred u with
  | none => acc
  | some p =>
    match items.find? p with
    | none => acc
    | some it =>
      if it.remainingUses > 0 then
        let newUses := it.remainingUses - 1
        let items1 := updateFirstBy p usageUpdate items
        let used1 := used ++ [{ itemId := it.id, name := it.name,
                                remainingUses := some newUses }]
        let depleted1 :=
          if newUses = 0 then
            depleted ++ [{ itemId := it.id, name := it.name, remainingUses := none }]
          else depleted
        (items1, used1, depleted1)
      else acc

/-- The expiry-sweep predicate for a given day: an expiry date at or before
the current day and not yet marked as waste. -/
def expiredPred (currentDate : Int) (i : DBItem) : Bool :=
  (match i.expiryDate with
   | some e => e ≤ currentDate
   | none => false) && !i.isWaste

/-- The newest log timestamp (`query(Log).order_by(timestamp.desc()).first()`). -/
def latestLogTimestamp (logs : List LogRec) : Option Int :=
  logs.foldl (fun acc l =>
    match acc with
    | none => some l.timestamp
    | some t => some (max t l.timestamp)) none

/-- The per-day loop of `simulate_days`: advance the clock, process the
usage list, sweep expired items, append one simulation log record. -/
def simulateLoop (usages : List SimUsage) :
    Nat → Int → DB × List SimStatus × List SimStatus × List SimStatus →
    DB × List SimStatus × List SimStatus × List SimStatus
  | 0, _, st => st
  | n + 1, current, (db, used, expired, depleted) =>
    let current1 := current + 1
    let (items1, used1, depleted1) := usages.foldl applyUsage (db.items, used, depleted)
    let expiredNow := items1.filter (expiredPred current1)
    let items2 := items1.map (fun i =>
      if expiredPred current1 i then { i with isWaste := true } else i)
    let expired1 := expired ++ expiredNow.map (fun i =>
      { itemId := i.id, name := i.name, remainingUses := none })
    let log : LogRec :=
      { timestamp := current1, userId := "system", actionType := "simulation",
        itemId := "N/A", fromContainer := none, toContainer := none,
        details := "Simulated day" }
    simulateLoop usages n current1
      ({ db with items := items2, logs := db.logs ++ [log] },
       used1, expired1, depleted1)

/-- `SimulationService.simulate_days`.  The logical clock starts from the
newest log timestamp (else `nowDefault`, the wall clock of the first call);
`toTimestamp = some none` stands for a provided but unparsable timestamp,
and `numOfDays = some 0` for the falsy value 0; a target not in the future
is pushed one day ahead.  Returns the final state, the target date and the
(itemsUsed, itemsExpired, itemsDepletedToday) change lists. -/
def simulateDays (db : DB) (numOfDays : Option Int)
    (toTimestamp : Option (Option Int)) (usages : List SimUsage)
    (nowDefault : Int) :
    DB × Int × List SimStatus × List SimStatus × List SimStatus :=
  let current := (latestLogTimestamp db.logs).getD nowDefault
  let target :=
    match toTimestamp with
    | some (some t) => t
    | some none => current
    | none =>
      match numOfDays with
      | some n => if n ≠ 0 then current + n else current + 1
      | none => current + 1
  let target := if target ≤ current then current + 1 else target
  let days := (target - current).toNat
  let res := simulateLoop usages days current (db, [], [], [])
  (res.1, target, res.2.1, res.2.2.1, res.2.2.2)

/-! ## WasteService (waste_service.py) -/

/-- schemas.ReturnPlanStep (`fromContainer` is the item's container id,
absent for an unplaced item). -/
structure ReturnPlanStep where
  step : Nat
  itemId : String
  itemName : String
  fromContainer : Option String
  toContainer : String
deriving Repr, DecidableEq

/-- schemas.ReturnManifestItem. -/
structure ReturnManifestItem where
  itemId : String
  name : String
  reason : String
deriving Repr, DecidableEq

/-- schemas.ReturnManifest (the undocking date echoes the request value). -/
structure ReturnManifest where
  undockingContainerId : String
  undockingDate : Option Int
  returnItems : List ReturnManifestItem
  totalVolume : Rat
  totalWeight : Rat
deriving Repr, DecidableEq

/-- An item's volume from its stored dimensions. -/
def itemVolume (i : DBItem) : Rat :=
  ((i.width * i.depth * i.height : Int) : Rat)

/-- Renumbering of a selected item's retrieval steps when concatenated onto
the accumulated list (`step.step = len(retrieval_steps) + i + 1`). -/
def renumberSteps (base : Nat) (steps : List RetrievalStep) : List RetrievalStep :=
  steps.enum.map (fun p => { p.2 with step := base + p.1 + 1 })

/-- The loop body of `create_return_plan`: skip the item when adding it
would exceed the mass cap or the undocking container's volume; otherwise
append a plan step, the item's (renumbered) retrieval steps and a manifest
entry, and update the running totals. -/
def returnPlanFold (db : DB) (ucid : String) (maxWeight avail : Rat)
    (st : List ReturnPlanStep × List RetrievalStep × List ReturnManifestItem × Rat × Rat × Nat)
    (item : DBItem) :
    List ReturnPlanStep × List RetrievalStep × List ReturnManifestItem × Rat × Rat × Nat :=
  let (plan, rsteps, rItems, totalV, totalW, counter) := st
  if totalW + item.mass > maxWeight then st
  else if totalV + itemVolume item > avail then st
  else
    let plan1 := plan ++ [{ step := counter, itemId := item.id,
                            itemName := item.name,
                            fromContainer := containerIdOf item,
                            toContainer := ucid }]
    let rsteps1 :=
      if (containerIdOf item).isSome then
        rsteps ++ renumberSteps rsteps.length (findItem db (some item.id) none).2.2
      else rsteps
    let rItems1 := rItems ++ [{ itemId := item.id, name := item.name,
                                reason := "Waste" }]
    (plan1, rsteps1, rItems1, totalV + itemVolume item, totalW + item.mass,
     counter + 1)

/-- The waste items sorted by mass descending (stable). -/
def sortedWasteOf (db : DB) : List DBItem :=
  (db.items.filter (fun i => i.isWaste)).insertionSort (fun a b => b.mass ≤ a.mass)

/-- `WasteService.create_return_plan`: on a malformed date, an unknown
undocking container or no waste the result is empty; otherwise the waste
items are scanned by mass descending under the mass and volume caps. -/
def createReturnPlan (db : DB) (ucid : String) (undockingDate : Option Int)
    (maxWeight : Rat) :
    List ReturnPlanStep × List RetrievalStep × ReturnManifest :=
  let emptyManifest : ReturnManifest :=
    { undockingContainerId := ucid, undockingDate := undockingDate,
      returnItems := [], totalVolume := 0, totalWeight := 0 }
  match undockingDate with
  | none => ([], [], emptyManifest)
  | some _ =>
    match db.containers.find? (fun c => c.id = ucid) with
    | none => ([], [], emptyManifest)
    | some uc =>
      if (db.items.filter (fun i => i.isWaste)).isEmpty then ([], [], emptyManifest)
      else
        let avail : Rat := ((uc.width * uc.depth * uc.height : Int) : Rat)
        let res :=
          (sortedWasteOf db).foldl (returnPlanFold db ucid maxWeight avail)
            ([], [], [], 0, 0, 1)
        (res.1, res.2.1,
         { undockingContainerId := ucid, undockingDate := undockingDate,
           returnItems := res.2.2.1, totalVolume := res.2.2.2.1,
           totalWeight := res.2.2.2.2.1 })

/-- Modelled from the spec: the greedy knapsack of §4.6 — scan the given
items (already sorted by mass descending), include an item iff adding it
keeps the selected mass within `maxWeight` and the selected volume within
`avail`; an excluded item does not stop the scan. -/
def greedyKnapsack (maxWeight avail : Rat) :
    List DBItem → Rat → Rat → List DBItem
  | [], _, _ => []
  | i :: rest, tw, tv =>
    if tw + i.mass ≤ maxWeight ∧ tv + itemVolume i ≤ avail then
      i :: greedyKnapsack maxWeight avail rest (tw + i.mass) (tv + itemVolume i)
    else
      greedyKnapsack maxWeight avail rest tw tv

/-! ## Plan-execution semantics and search score (spec-modelled) -/

/-- Modelled from the spec: executing one retrieval step on an arrangement.
`remove` and `retrieve` take the named item out, `setAside` leaves the
arrangement unchanged, and `placeBack` restores the item as recorded in the
original arrangement `orig` (the plan steps themselves carry no positions —
placing back restores the pre-retrieval placement). -/
def applyRetrievalStep (orig : List DBItem) (st : List DBItem)
    (s : RetrievalStep) : List DBItem :=
  if s.action = "remove" ∨ s.action = "retrieve" then
    st.filter (fun i => i.id ≠ s.itemId)
  else if s.action = "placeBack" then
    match orig.find? (fun i => i.id = s.itemId) with
    | some it => st ++ [it]
    | none => st
  else st

/-- Modelled from the spec: executing a whole plan in order, starting from
and placing back into the original arrangement `orig`. -/
def execPlan (orig : List DBItem) (steps : List RetrievalStep) : List DBItem :=
  steps.foldl (applyRetrievalStep orig) orig

/-- Modelled from the spec: the disambiguation score of §4.4,
`0.5·(1 − min(blockers, 20)/20) + 0.3·(1 − clamp(days_to_expiry, 0, 365)/365)
 + 0.2·(priority/100)`, with `days_to_expiry` counted from `currentDay`. -/
def specScore (currentDay : Int) (i : DBItem) (blockers : Nat) : Rat :=
  let b : Rat := min (blockers : Rat) 20
  let days : Rat :=
    match i.expiryDate with
    | some e => min (max ((e - currentDay : Int) : Rat) 0) 365
    | none => 365
  (1 / 2) * (1 - b / 20) + (3 / 10) * (1 - days / 365) +
    (1 / 5) * ((i.priority : Rat) / 100)

/-! ## Operation sequences for the lifecycle invariants -/

/-- A core mutating operation in the scope of the lifecycle invariants:
a retrieval execution or a time-simulation request. -/
inductive CoreOp where
  | retrieveOp (itemId userId : String) (ts : Option Int)
  | simulateOp (numOfDays : Option Int) (toTimestamp : Option (Option Int))
      (usages : List SimUsage) (nowDefault : Int)
deriving Repr

/-- Apply one core operation to the store. -/
def applyCoreOp (db : DB) : CoreOp → DB
  | .retrieveOp itemId userId ts => (retrieveItem db itemId userId ts).2
  | .simulateOp numOfDays toTimestamp usages nowDefault =>
    (simulateDays db numOfDays toTimestamp usages nowDefault).1

/-- Apply a sequence of core operations to the store. -/
def applyCoreOps (db : DB) (ops : List CoreOp) : DB :=
  ops.foldl applyCoreOp db

/-- The per-item evolution relation preserved by every core operation:
identity is stable, non-negative remaining uses stay non-negative, and the
waste flag never reverts to false. -/
def itemEvolves (a b : DBItem) : Prop :=
  a.id = b.id ∧ (0 ≤ a.remainingUses → 0 ≤ b.remainingUses) ∧
    (a.isWaste = true → b.isWaste = true)

/-- The origin range visited by the triple loop of
`_find_position_in_container` for oriented dimensions `o` (inclusive upper
bounds `container dimension − extent`). -/
def inScanRange (c : ContainerData) (o : Int × Int × Int)
    (q : Int × Int × Int) : Prop :=
  0 ≤ q.1 ∧ q.1 ≤ c.width - o.1 ∧
  0 ≤ q.2.1 ∧ q.2.1 ≤ c.depth - o.2.1 ∧
  0 ≤ q.2.2 ∧ q.2.2 ≤ c.height - o.2.2

instance (c : ContainerData) (o q : Int × Int × Int) :
    Decidable (inScanRange c o q) := by
  unfold inScanRange; infer_instance

/-! ## Concrete instances used by the claim theorems -/

/-- A 10×5×5 item: it fits the container below only in a rotated
orientation. -/
def wideItem : ItemB := ⟨"I", "Item1", 10, 5, 5, 50, none, 10, "Z"⟩

/-- A 5×10×5 container in the item's preferred zone. -/
def slimContainer : ContainerB := ⟨"A", "Z", 5, 10, 5⟩

/-- A 2×1×2 container whose front-bottom cell (0,0,0) is occupied. -/
def occupiedContainer : ContainerData :=
  ⟨"A", "Z", 2, 1, 2, [⟨0, 1, 0, 1, 0, 1⟩], []⟩

/-- A unit cube item (all six orientations coincide). -/
def unitCubeItem : ItemData := ⟨"U", "unit", 1, 1, 1, 50, none, 10, "Z", false⟩

/-- Request with a duplicate item id and a negative item dimension: invalid
per the specification, yet the planner raises no exception on it. -/
def duplicateIdItems : List ItemB :=
  [⟨"D", "d", -3, 4, 4, 10, none, 1, "Z"⟩, ⟨"D", "d", 2, 2, 2, 10, none, 1, "Z"⟩]

/-- Two containers sharing one id (collapsed by the dict, not rejected). -/
def duplicateIdContainers : List ContainerB :=
  [⟨"A", "Z", 5, 5, 5⟩, ⟨"A", "Z", 4, 4, 4⟩]

/-- Retrieval scenario: the target, at depth 2, height 0..2. -/
def targetT : DBItem := ⟨"T", "t", 2, 1, 2, 1, 50, none, 5, 5, false, some ⟨"C", 0, 2, 0⟩⟩

/-- Direct blocker at the front, column 0, height 0..2. -/
def blockerA : DBItem := ⟨"A", "a", 1, 1, 2, 1, 50, none, 5, 5, false, some ⟨"C", 0, 0, 0⟩⟩

/-- Direct blocker at the front, column 1, height 1..2 (same depth as
`blockerA` but higher). -/
def blockerB : DBItem := ⟨"B", "b", 1, 1, 1, 1, 50, none, 5, 5, false, some ⟨"C", 1, 0, 1⟩⟩

/-- An item resting on top of `blockerA` (so in the spec's support-closure
of the blockers) that does not itself block the target. -/
def riderS : DBItem := ⟨"S", "s", 1, 1, 1, 1, 50, none, 5, 5, false, some ⟨"C", 0, 0, 2⟩⟩

/-- The container arrangement of the retrieval scenario. -/
def retrievalScenario : List DBItem := [targetT, blockerA, blockerB, riderS]

/-- Search scenario: candidate `P` named "N", high priority, one blocker. -/
def candidateP : DBItem :=
  ⟨"P", "N", 1, 1, 1, 1, 100, some 500, 5, 5, false, some ⟨"C", 0, 5, 0⟩⟩

/-- The single blocker in front of `candidateP`. -/
def blockerQ : DBItem :=
  ⟨"Q", "q", 1, 1, 1, 1, 50, none, 5, 5, false, some ⟨"C", 0, 0, 0⟩⟩

/-- Search scenario: candidate `R` named "N", priority 0, directly at the
front face of its container. -/
def candidateR : DBItem :=
  ⟨"R", "N", 1, 1, 1, 1, 0, some 500, 5, 5, false, some ⟨"D", 0, 0, 0⟩⟩

/-- The store of the search-disambiguation scenario. -/
def searchScenario : DB :=
  ⟨[candidateP, blockerQ, candidateR],
   [⟨"C", "Z", 10, 10, 10⟩, ⟨"D", "Z", 10, 10, 10⟩], []⟩

/-- A placed item whose remaining uses are already exhausted. -/
def depletedItem : DBItem :=
  ⟨"U", "u", 1, 1, 1, 1, 50, none, 5, 0, true, some ⟨"C", 0, 0, 0⟩⟩

/-- The store of the exhausted-retrieval scenario. -/
def depletedScenario : DB := ⟨[depletedItem], [⟨"C", "Z", 10, 10, 10⟩], []⟩

/-- Waste item M₁ of spec scenario §8.6: mass 5, volume 100. -/
def wasteM1 : DBItem := ⟨"M1", "m1", 10, 10, 1, 5, 50, none, 1, 0, true, some ⟨"C", 0, 0, 0⟩⟩

/-- Waste item M₂ of spec scenario §8.6: mass 8, volume 100. -/
def wasteM2 : DBItem := ⟨"M2", "m2", 10, 10, 1, 8, 50, none, 1, 0, true, some ⟨"C", 0, 0, 1⟩⟩

/-- The store of the return-plan scenario (undocking container `U` of
interior volume 150). -/
def wasteScenario : DB :=
  ⟨[wasteM1, wasteM2], [⟨"C", "Z", 20, 20, 20⟩, ⟨"U", "Z", 5, 5, 6⟩], []⟩

/-- An unplaced 10×10×10 item for the place-endpoint scenario. -/
def cubeItem : DBItem := ⟨"I", "i", 10, 10, 10, 1, 50, none, 5, 5, false, none⟩

/-- The store of the place-endpoint scenario. -/
def placeScenario : DB := ⟨[cubeItem], [⟨"C", "Z", 100, 100, 100⟩], []⟩

/-- A place request whose extents (5,5,5) are no permutation of the item's
base dimensions (10,10,10). -/
def shrinkPosition : Position := ⟨⟨0, 0, 0⟩, ⟨5, 5, 5⟩⟩

/-! ## Helper lemmas -/

/-- `find?` on a strictly ordered list returns the least element satisfying
the predicate: any other hit is the result itself or comes strictly later. -/
theorem find_first_min {α : Type} {p : α → Bool} {lt : α → α → Prop} :
    ∀ {l : List α} {a : α}, l.Pairwise lt → l.find? p = some a →
      ∀ b ∈ l, p b = true → b = a ∨ lt a b := by
  intro l
  induction l with
  | nil => intro a _ h; simp at h
  | cons c tl ih =>
    intro a hpw h b hb hpb
    rw [List.find?_cons] at h
    rcases List.pairwise_cons.mp hpw with ⟨hc, htl⟩
    by_cases hpc : p c
    · simp only [hpc] at h
      cases h
      rcases List.mem_cons.mp hb with rfl | hbtl
      · exact Or.inl rfl
      · exact Or.inr (hc b hbtl)
    · simp only [hpc] at h
      rcases List.mem_cons.mp hb with rfl | hbtl
      · exact absurd hpb (by simpa using hpc)
      · exact ih htl h b hbtl hpb

/-- Membership in `intRange n`: the integers from 0 up to `n − 1`. -/
theorem mem_intRange {n x : Int} : x ∈ intRange n ↔ 0 ≤ x ∧ x < n := by
  simp only [intRange, List.mem_map, List.mem_range, Int.ofNat_eq_coe]
  constructor
  · rintro ⟨k, hk, rfl⟩; omega
  · rintro ⟨h0, h1⟩; exact ⟨x.toNat, by omega, by omega⟩

/-- `intRange n` is strictly increasing. -/
theorem pairwise_intRange (n : Int) : (intRange n).Pairwise (· < ·) := by
  unfold intRange
  rw [List.pairwise_map]
  refine (List.pairwise_lt_range _).imp ?_
  intro a b hk
  simp only [Int.ofNat_eq_coe]
  exact_mod_cast hk

/-- Membership in the scan enumeration is exactly the in-range condition. -/
theorem mem_scanOrigins {bigW bigD bigH w d h : Int} {q : Int × Int × Int} :
    q ∈ scanOrigins bigW bigD bigH w d h ↔
      0 ≤ q.1 ∧ q.1 ≤ bigW - w ∧ 0 ≤ q.2.1 ∧ q.2.1 ≤ bigD - d ∧
      0 ≤ q.2.2 ∧ q.2.2 ≤ bigH - h := by
  obtain ⟨x, y, z⟩ := q
  simp only [scanOrigins, List.mem_flatMap, List.mem_map, mem_intRange]
  constructor
  · rintro ⟨i, hi, j, hj, k, hk, heq⟩
    obtain ⟨h1, h2, h3⟩ : i = x ∧ j = y ∧ k = z := by
      simpa [Prod.ext_iff] using heq
    subst h1; subst h2; subst h3
    exact ⟨hi.1, by omega, hj.1, by omega, hk.1, by omega⟩
  · rintro ⟨hx0, hx1, hy0, hy1, hz0, hz1⟩
    exact ⟨x, ⟨hx0, by omega⟩, y, ⟨hy0, by omega⟩, z, ⟨hz0, by omega⟩, rfl⟩

/-- The scan enumeration is strictly increasing in lexicographic (x,y,z)
order: the outer loop ranges over x, the middle over y, the inner over z. -/
theorem pairwise_scanOrigins (bigW bigD bigH w d h : Int) :
    (scanOrigins bigW bigD bigH w d h).Pairwise xyzLt := by
  unfold scanOrigins
  rw [List.pairwise_flatMap]
  refine ⟨fun i _ => ?_, ?_⟩
  · rw [List.pairwise_flatMap]
    refine ⟨fun j _ => ?_, ?_⟩
    · rw [List.pairwise_map]
      refine (pairwise_intRange _).imp ?_
      intro k₁ k₂ hk
      exact Or.inr ⟨rfl, Or.inr ⟨rfl, hk⟩⟩
    · refine (pairwise_intRange _).imp ?_
      intro j₁ j₂ hj x hx y hy
      simp only [List.mem_map] at hx hy
      obtain ⟨k₁, -, rfl⟩ := hx
      obtain ⟨k₂, -, rfl⟩ := hy
      exact Or.inr ⟨rfl, Or.inl hj⟩
  · refine (pairwise_intRange _).imp ?_
    intro i₁ i₂ hi x hx y hy
    simp only [List.mem_flatMap, List.mem_map] at hx hy
    obtain ⟨j₁, -, k₁, -, rfl⟩ := hx
    obtain ⟨j₂, -, k₂, -, rfl⟩ := hy
    exact Or.inl hi

/-- Projecting action and item id out of the remove/setAside pairs. -/
theorem removePairs_proj_aux (l : List DBItem) :
    ∀ n : Nat, ((l.enumFrom n).flatMap (fun ib =>
      ([{ step := ib.1 + 1, action := "remove",
          itemId := ib.2.id, itemName := ib.2.name },
        { step := ib.1 + 2, action := "setAside",
          itemId := ib.2.id, itemName := ib.2.name }] : List RetrievalStep))).map
        (fun s => (s.action, s.itemId)) =
      l.flatMap (fun b => [("remove", b.id), ("setAside", b.id)]) := by
  induction l with
  | nil => intro n; rfl
  | cons b l ih =>
    intro n
    simp only [List.enumFrom, List.flatMap_cons, List.map_append]
    rw [ih (n + 1)]
    rfl

/-- Projecting action and item id out of `removePairsOf`. -/
theorem removePairsOf_proj (l : List DBItem) :
    (removePairsOf l).map (fun s => (s.action, s.itemId)) =
      l.flatMap (fun b => [("remove", b.id), ("setAside", b.id)]) :=
  removePairs_proj_aux l 0

/-- Projecting action and item id out of the placeBack steps. -/
theorem placeBacks_proj_aux (base : Nat) (l : List DBItem) :
    ∀ n : Nat, ((l.enumFrom n).map (fun ib =>
      ({ step := base + 1 + ib.1, action := "placeBack",
         itemId := ib.2.id, itemName := ib.2.name } : RetrievalStep))).map
        (fun s => (s.action, s.itemId)) =
      l.map (fun b => (("placeBack" : String), b.id)) := by
  induction l with
  | nil => intro n; rfl
  | cons b l ih =>
    intro n
    simp only [List.enumFrom, List.map_cons]
    rw [ih (n + 1)]

/-- Projecting action and item id out of `placeBacksOf`. -/
theorem placeBacksOf_proj (base : Nat) (l : List DBItem) :
    (placeBacksOf base l).map (fun s => (s.action, s.itemId)) =
      l.reverse.map (fun b => (("placeBack" : String), b.id)) :=
  placeBacks_proj_aux base l.reverse 0

instance : IsTotal DBItem (fun a b => posDepthOf a ≤ posDepthOf b) :=
  ⟨fun a b => Int.le_total (posDepthOf a) (posDepthOf b)⟩

instance : IsTrans DBItem (fun a b => posDepthOf a ≤ posDepthOf b) :=
  ⟨fun _ _ _ h1 h2 => le_trans h1 h2⟩

/-- "Not strictly preferred" is transitive for the selection key order. -/
theorem not_keyLt_trans {x y z : Nat × WithTop Int}
    (h1 : ¬ keyLt x y) (h2 : ¬ keyLt y z) : ¬ keyLt x z := by
  unfold keyLt at *
  push_neg at h1 h2
  obtain ⟨h1a, h1b⟩ := h1
  obtain ⟨h2a, h2b⟩ := h2
  rintro (hlt | ⟨heq, hlt⟩)
  · omega
  · have hxy : x.1 = y.1 := by omega
    have hyz : y.1 = z.1 := by omega
    have he1 : y.2 ≤ x.2 := h1b hxy
    have he2 : z.2 ≤ y.2 := h2b hyz
    exact absurd hlt (not_lt.mpr (le_trans he2 he1))

/-- Unfolding `chooseBest` for a placed candidate against an incumbent whose
stored step count is accurate: the candidate wins exactly when its key is
strictly smaller. -/
theorem chooseBest_replace_iff (dbItems : List DBItem) (b : DBItem) (ms : Nat)
    (it : DBItem) (hit : (containerIdOf it).isNone = false)
    (hms : ms = (calcRetrievalSteps b dbItems).length) :
    chooseBest dbItems (some (b, ms)) it =
      if keyLt (searchKey dbItems it) (searchKey dbItems b)
      then some (it, (calcRetrievalSteps it dbItems).length)
      else some (b, ms) := by
  unfold chooseBest
  rw [hit]
  simp only [Bool.false_eq_true, if_false]
  rcases Nat.lt_trichotomy ((calcRetrievalSteps it dbItems).length) ms with hlt | heq | hgt
  · rw [if_pos hlt, if_pos]
    left
    rw [hms] at hlt
    exact hlt
  · rw [if_neg (by omega), if_pos heq]
    cases hie : it.expiryDate with
    | none =>
      dsimp only
      rw [if_neg]
      rintro (h | ⟨-, h⟩)
      · unfold searchKey at h; simp at h; omega
      · unfold searchKey expTop at h
        rw [hie] at h
        exact absurd h (not_top_lt)
    | some e =>
      cases hbe : b.expiryDate with
      | none =>
        dsimp only
        rw [if_pos, heq]
        right
        refine ⟨by unfold searchKey; simp; omega, ?_⟩
        unfold searchKey expTop
        rw [hie, hbe]
        exact WithTop.coe_lt_top e
      | some be =>
        dsimp only
        by_cases hlt2 : e < be
        · rw [if_pos hlt2, if_pos, heq]
          right
          refine ⟨by unfold searchKey; simp; omega, ?_⟩
          unfold searchKey expTop
          rw [hie, hbe]
          dsimp only
          exact_mod_cast hlt2
        · rw [if_neg hlt2, if_neg]
          rintro (h | ⟨-, h⟩)
          · unfold searchKey at h; simp at h; omega
          · unfold searchKey expTop at h
            rw [hie, hbe] at h
            dsimp only at h
            exact hlt2 (by exact_mod_cast h)
  · rw [if_neg (by omega), if_neg (by omega), if_neg]
    rintro (h | ⟨h, -⟩)
    · unfold searchKey at h; simp at h; omega
    · unfold searchKey at h; simp at h; omega

/-- Strict key preference is irreflexive. -/
theorem keyLt_irrefl (x : Nat × WithTop Int) : ¬ keyLt x x := by
  unfold keyLt
  rintro (h | ⟨-, h⟩)
  · omega
  · exact absurd h (lt_irrefl _)

/-- Strict key preference is transitive. -/
theorem keyLt_trans {x y z : Nat × WithTop Int}
    (h1 : keyLt x y) (h2 : keyLt y z) : keyLt x z := by
  unfold keyLt at *
  rcases h1 with h1 | ⟨h1e, h1l⟩ <;> rcases h2 with h2 | ⟨h2e, h2l⟩
  · exact Or.inl (by omega)
  · exact Or.inl (by omega)
  · exact Or.inl (by omega)
  · exact Or.inr ⟨by omega, lt_trans h1l h2l⟩

/-- The candidate fold of `find_item` returns a placed candidate with an
accurate step count that is minimal for the selection key, or `none` when
the accumulator was empty and no listed candidate is placed. -/
theorem foldl_chooseBest_spec (dbItems : List DBItem) :
    ∀ (l : List DBItem) (acc : Option (DBItem × Nat)),
      (∀ p, acc = some p → p.2 = (calcRetrievalSteps p.1 dbItems).length ∧
        (containerIdOf p.1).isNone = false) →
      (l.foldl (chooseBest dbItems) acc = none →
        acc = none ∧ ∀ it ∈ l, (containerIdOf it).isNone = true) ∧
      (∀ b ms, l.foldl (chooseBest dbItems) acc = some (b, ms) →
        ms = (calcRetrievalSteps b dbItems).length ∧
        (containerIdOf b).isNone = false ∧
        (acc = some (b, ms) ∨ b ∈ l) ∧
        (∀ it ∈ l, (containerIdOf it).isNone = false →
          ¬ keyLt (searchKey dbItems it) (searchKey dbItems b)) ∧
        (∀ a ms0, acc = some (a, ms0) →
          ¬ keyLt (searchKey dbItems a) (searchKey dbItems b))) := by
  intro l
  induction l with
  | nil =>
    intro acc hacc
    constructor
    · intro h
      exact ⟨h, by simp⟩
    · intro b ms h
      simp only [List.foldl_nil] at h
      obtain ⟨h1, h2⟩ := hacc _ h
      refine ⟨h1, h2, Or.inl h, by simp, ?_⟩
      intro a ms0 ha
      rw [h] at ha
      cases ha
      exact keyLt_irrefl _
  | cons it l ih =>
    intro acc hacc
    rw [List.foldl_cons]
    by_cases hplaced : (containerIdOf it).isNone = true
    · have hskip : chooseBest dbItems acc it = acc := by
        unfold chooseBest
        rw [hplaced]
        simp
      rw [hskip]
      obtain ⟨ihn, ihs⟩ := ih acc hacc
      constructor
      · intro h
        obtain ⟨ha, hall⟩ := ihn h
        refine ⟨ha, ?_⟩
        intro x hx
        rcases List.mem_cons.mp hx with rfl | hx'
        · exact hplaced
        · exact hall x hx'
      · intro b ms h
        obtain ⟨h1, h2, h3, h4, h5⟩ := ihs b ms h
        refine ⟨h1, h2, ?_, ?_, h5⟩
        · rcases h3 with h3 | h3
          · exact Or.inl h3
          · exact Or.inr (List.mem_cons_of_mem _ h3)
        · intro x hx hxp
          rcases List.mem_cons.mp hx with rfl | hx'
          · rw [hplaced] at hxp; cases hxp
          · exact h4 x hx' hxp
    · have hplaced' : (containerIdOf it).isNone = false := by
        cases hh : (containerIdOf it).isNone
        · rfl
        · exact absurd hh hplaced
      cases hav : acc with
      | none =>
        have hstep : chooseBest dbItems none it =
            some (it, (calcRetrievalSteps it dbItems).length) := by
          unfold chooseBest
          rw [hplaced']
          simp
        rw [hstep]
        obtain ⟨ihn, ihs⟩ := ih (some (it, (calcRetrievalSteps it dbItems).length))
          (by
            intro p hp
            cases hp
            exact ⟨rfl, hplaced'⟩)
        constructor
        · intro h
          obtain ⟨ha, -⟩ := ihn h
          cases ha
        · intro b ms h
          obtain ⟨h1, h2, h3, h4, h5⟩ := ihs b ms h
          refine ⟨h1, h2, ?_, ?_, ?_⟩
          · rcases h3 with h3 | h3
            · cases h3
              exact Or.inr (List.mem_cons_self _ _)
            · exact Or.inr (List.mem_cons_of_mem _ h3)
          · intro x hx hxp
            rcases List.mem_cons.mp hx with rfl | hx'
            · exact h5 x _ rfl
            · exact h4 x hx' hxp
          · intro a ms0 ha
            cases ha
      | some p =>
        obtain ⟨a, ms0⟩ := p
        obtain ⟨hms0, hap⟩ := hacc (a, ms0) hav
        rw [chooseBest_replace_iff dbItems a ms0 it hplaced' hms0]
        by_cases hklt : keyLt (searchKey dbItems it) (searchKey dbItems a)
        · rw [if_pos hklt]
          obtain ⟨ihn, ihs⟩ := ih (some (it, (calcRetrievalSteps it dbItems).length))
            (by
              intro p hp
              cases hp
              exact ⟨rfl, hplaced'⟩)
          constructor
          · intro h
            obtain ⟨ha, -⟩ := ihn h
            cases ha
          · intro b ms h
            obtain ⟨h1, h2, h3, h4, h5⟩ := ihs b ms h
            have hitb : ¬ keyLt (searchKey dbItems it) (searchKey dbItems b) :=
              h5 it _ rfl
            refine ⟨h1, h2, ?_, ?_, ?_⟩
            · rcases h3 with h3 | h3
              · cases h3
                exact Or.inr (List.mem_cons_self _ _)
              · exact Or.inr (List.mem_cons_of_mem _ h3)
            · intro x hx hxp
              rcases List.mem_cons.mp hx with rfl | hx'
              · exact hitb
              · exact h4 x hx' hxp
            · intro a2 ms2 ha2
              cases ha2
              intro hcon
              exact hitb (keyLt_trans hklt hcon)
        · rw [if_neg hklt]
          obtain ⟨ihn, ihs⟩ := ih (some (a, ms0))
            (by
              intro p hp
              cases hp
              exact ⟨hms0, hap⟩)
          constructor
          · intro h
            obtain ⟨ha, -⟩ := ihn h
            cases ha
          · intro b ms h
            obtain ⟨h1, h2, h3, h4, h5⟩ := ihs b ms h
            have hab : ¬ keyLt (searchKey dbItems a) (searchKey dbItems b) :=
              h5 a ms0 rfl
            refine ⟨h1, h2, ?_, ?_, ?_⟩
            · rcases h3 with h3 | h3
              · exact Or.inl h3
              · exact Or.inr (List.mem_cons_of_mem _ h3)
            · intro x hx hxp
              rcases List.mem_cons.mp hx with rfl | hx'
              · exact not_keyLt_trans hklt hab
              · exact h4 x hx' hxp
            · intro a2 ms2 ha2
              cases ha2
              exact hab

/-- `updateFirstBy` transforms the first row matching the predicate, so a
`find?` with the same predicate sees the transformed row (provided the
transformation preserves the predicate). -/
theorem find?_updateFirstBy {α : Type} {p : α → Bool} {f : α → α}
    (hpf : ∀ a, p a = true → p (f a) = true) :
    ∀ {l : List α} {a : α}, l.find? p = some a →
      (updateFirstBy p f l).find? p = some (f a) := by
  intro l
  induction l with
  | nil => intro a h; simp at h
  | cons b l ih =>
    intro a h
    rw [List.find?_cons] at h
    cases hv : p b with
    | true =>
      rw [hv] at h
      dsimp only at h
      cases h
      unfold updateFirstBy
      rw [if_pos hv, List.find?_cons, hpf _ hv]
    | false =>
      rw [hv] at h
      dsimp only at h
      unfold updateFirstBy
      rw [if_neg (by simp [hv]), List.find?_cons, hv]
      dsimp only
      exact ih h

/-- Rows not matching the predicate survive `updateFirstBy` unchanged. -/
theorem mem_updateFirstBy_of_neg {α : Type} {p : α → Bool} {f : α → α} :
    ∀ {l : List α} {x : α}, x ∈ l → p x = false → x ∈ updateFirstBy p f l := by
  intro l
  induction l with
  | nil => intro x h; simp at h
  | cons b l ih =>
    intro x hx hpx
    unfold updateFirstBy
    rcases List.mem_cons.mp hx with rfl | hx'
    · rw [if_neg (by simp [hpx])]
      exact List.mem_cons_self _ _
    · by_cases hpb : p b = true
      · rw [if_pos hpb]
        exact List.mem_cons_of_mem _ hx'
      · rw [if_neg hpb]
        exact List.mem_cons_of_mem _ (ih hx' hpx)

/-- Executing a `remove` step drops the named item. -/
theorem applyStep_remove (orig st : List DBItem) (k : Nat) (idv nmv : String) :
    applyRetrievalStep orig st ⟨k, "remove", idv, nmv⟩ =
      st.filter (fun i => i.id ≠ idv) := by
  unfold applyRetrievalStep
  rw [if_pos (Or.inl rfl)]

/-- Executing a `retrieve` step drops the named item. -/
theorem applyStep_retrieve (orig st : List DBItem) (k : Nat) (idv nmv : String) :
    applyRetrievalStep orig st ⟨k, "retrieve", idv, nmv⟩ =
      st.filter (fun i => i.id ≠ idv) := by
  unfold applyRetrievalStep
  rw [if_pos (Or.inr rfl)]

/-- Executing a `setAside` step leaves the arrangement unchanged. -/
theorem applyStep_setAside (orig st : List DBItem) (k : Nat) (idv nmv : String) :
    applyRetrievalStep orig st ⟨k, "setAside", idv, nmv⟩ = st := by
  have h1 : ¬((("setAside" : String) = "remove") ∨ (("setAside" : String) = "retrieve")) := by
    decide
  have h2 : ¬(("setAside" : String) = "placeBack") := by decide
  unfold applyRetrievalStep
  dsimp only
  rw [if_neg h1, if_neg h2]

/-- Executing a `placeBack` step restores the item recorded in the original
arrangement. -/
theorem applyStep_placeBack (orig st : List DBItem) (k : Nat) (idv nmv : String) :
    applyRetrievalStep orig st ⟨k, "placeBack", idv, nmv⟩ =
      (match orig.find? (fun i => i.id = idv) with
       | some it => st ++ [it]
       | none => st) := by
  have h1 : ¬((("placeBack" : String) = "remove") ∨ (("placeBack" : String) = "retrieve")) := by
    decide
  unfold applyRetrievalStep
  dsimp only
  rw [if_neg h1, if_pos rfl]

/-- Executing the remove/setAside pairs filters out exactly the ids of the
listed blockers. -/
theorem exec_removePairs_aux (orig : List DBItem) :
    ∀ (bl : List DBItem) (n : Nat) (st : List DBItem),
      ((bl.enumFrom n).flatMap (fun ib =>
        ([{ step := ib.1 + 1, action := "remove",
            itemId := ib.2.id, itemName := ib.2.name },
          { step := ib.1 + 2, action := "setAside",
            itemId := ib.2.id, itemName := ib.2.name }] :
          List RetrievalStep))).foldl (applyRetrievalStep orig) st =
      st.filter (fun x => !((bl.map (fun b => b.id)).contains x.id)) := by
  intro bl
  induction bl with
  | nil =>
    intro n st
    simp [List.enumFrom]
  | cons b bl ih =>
    intro n st
    simp only [List.enumFrom, List.flatMap_cons, List.foldl_append,
      List.foldl_cons, List.foldl_nil]
    rw [applyStep_remove, applyStep_setAside, ih (n + 1), List.filter_filter]
    apply List.filter_congr
    intro x _
    by_cases hxb : x.id = b.id
    · simp [List.contains_cons, hxb]
    · simp [List.contains_cons, hxb]

/-- Executing `removePairsOf` filters out exactly the blocker ids. -/
theorem exec_removePairsOf (orig bl st : List DBItem) :
    (removePairsOf bl).foldl (applyRetrievalStep orig) st =
      st.filter (fun x => !((bl.map (fun b => b.id)).contains x.id)) :=
  exec_removePairs_aux orig bl 0 st

/-- With unique ids, `find?` by an element's id returns that element. -/
theorem find?_eq_self_of_nodup :
    ∀ {l : List DBItem}, (l.map (fun i => i.id)).Nodup →
      ∀ {b : DBItem}, b ∈ l → l.find? (fun i => i.id = b.id) = some b := by
  intro l
  induction l with
  | nil => intro _ b hb; simp at hb
  | cons a l ih =>
    intro hnd b hb
    have hh : a.id ∉ l.map (fun i => i.id) ∧ (l.map (fun i => i.id)).Nodup := by
      rw [List.map_cons] at hnd
      exact List.nodup_cons.mp hnd
    rw [List.find?_cons]
    rcases List.mem_cons.mp hb with rfl | hb'
    · rw [show (decide (b.id = b.id)) = true by simp]
    · have hne : (decide (a.id = b.id)) = false := by
        simp only [decide_eq_false_iff_not]
        intro heq
        exact hh.1 (heq ▸ List.mem_map_of_mem _ hb')
      rw [hne]
      dsimp only
      exact ih hh.2 hb'

/-- Executing the placeBack steps appends the listed items back, provided
each is found in the original arrangement. -/
theorem exec_placeBacks_aux (orig : List DBItem) :
    ∀ (bl : List DBItem) (base n : Nat) (st : List DBItem),
      (∀ b ∈ bl, orig.find? (fun i => i.id = b.id) = some b) →
      ((bl.enumFrom n).map (fun ib =>
        ({ step := base + 1 + ib.1, action := "placeBack",
           itemId := ib.2.id, itemName := ib.2.name } :
          RetrievalStep))).foldl (applyRetrievalStep orig) st = st ++ bl := by
  intro bl
  induction bl with
  | nil =>
    intro base n st _
    simp [List.enumFrom]
  | cons b bl ih =>
    intro base n st hfind
    simp only [List.enumFrom, List.map_cons, List.foldl_cons]
    rw [applyStep_placeBack, hfind b (List.mem_cons_self _ _)]
    rw [ih base (n + 1) (st ++ [b])
      (fun x hx => hfind x (List.mem_cons_of_mem _ hx))]
    rw [List.append_assoc]
    rfl

/-- Executing `placeBacksOf` appends the blockers in reverse order. -/
theorem exec_placeBacksOf (orig bl : List DBItem) (base : Nat)
    (st : List DBItem)
    (hfind : ∀ b ∈ bl, orig.find? (fun i => i.id = b.id) = some b) :
    (placeBacksOf base bl).foldl (applyRetrievalStep orig) st =
      st ++ bl.reverse :=
  exec_placeBacks_aux orig bl.reverse base 0 st
    (fun b hb => hfind b (List.mem_reverse.mp hb))

/-- Filtering on the action and projecting the item id can be computed on
the (action, itemId) projection. -/
theorem filter_action_proj (l : List RetrievalStep) (act : String) :
    (l.filter (fun s => s.action = act)).map (fun s => s.itemId) =
      ((l.map (fun s => (s.action, s.itemId))).filter
        (fun t => t.1 = act)).map (fun t => t.2) := by
  induction l with
  | nil => rfl
  | cons s l ih =>
    by_cases hp : s.action = act <;>
      simp [List.filter_cons, hp, ih]

/-- The setAside entries of the remove/setAside pair list are the blocker
ids in order. -/
theorem pairlist_filter_setAside (bl : List DBItem) :
    ((bl.flatMap (fun b =>
      [(("remove" : String), b.id), ("setAside", b.id)])).filter
        (fun t => t.1 = "setAside")).map (fun t => t.2) =
      bl.map (fun b => b.id) := by
  induction bl with
  | nil => rfl
  | cons b bl ih => simp [ih]

/-- The pair list contains no placeBack entries. -/
theorem pairlist_filter_placeBack (bl : List DBItem) :
    (bl.flatMap (fun b =>
      [(("remove" : String), b.id), ("setAside", b.id)])).filter
        (fun t => t.1 = "placeBack") = [] := by
  induction bl with
  | nil => rfl
  | cons b bl ih => simp [ih]

/-- The placeBack entries of the mapped placeBack list are the listed ids. -/
theorem backlist_filter_placeBack (bl : List DBItem) :
    ((bl.map (fun b => (("placeBack" : String), b.id))).filter
      (fun t => t.1 = "placeBack")).map (fun t => t.2) =
      bl.map (fun b => b.id) := by
  induction bl with
  | nil => rfl
  | cons b bl ih => simp [ih]

/-- The mapped placeBack list contains no setAside entries. -/
theorem backlist_filter_setAside (bl : List DBItem) :
    (bl.map (fun b => (("placeBack" : String), b.id))).filter
      (fun t => t.1 = "setAside") = [] := by
  induction bl with
  | nil => rfl
  | cons b bl ih => simp [ih]

/-- `itemEvolves` is reflexive. -/
theorem itemEvolves_refl (a : DBItem) : itemEvolves a a :=
  ⟨rfl, id, id⟩

/-- `itemEvolves` is transitive. -/
theorem itemEvolves_trans {a b c : DBItem}
    (h1 : itemEvolves a b) (h2 : itemEvolves b c) : itemEvolves a c :=
  ⟨h1.1.trans h2.1, fun h => h2.2.1 (h1.2.1 h), fun h => h2.2.2 (h1.2.2 h)⟩

/-- Pointwise evolution under reflexivity. -/
theorem forall2_evolves_refl (l : List DBItem) :
    List.Forall₂ itemEvolves l l := by
  induction l with
  | nil => exact List.Forall₂.nil
  | cons a l ih => exact List.Forall₂.cons (itemEvolves_refl a) ih

/-- Transitivity of pointwise evolution. -/
theorem forall2_evolves_trans :
    ∀ {l1 l2 l3 : List DBItem}, List.Forall₂ itemEvolves l1 l2 →
      List.Forall₂ itemEvolves l2 l3 → List.Forall₂ itemEvolves l1 l3 := by
  intro l1
  induction l1 with
  | nil =>
    intro l2 l3 h12 h23
    cases h12
    cases h23
    exact List.Forall₂.nil
  | cons a l1 ih =>
    intro l2 l3 h12 h23
    cases h12 with
    | cons hab h12tl =>
      cases h23 with
      | cons hbc h23tl =>
        exact List.Forall₂.cons (itemEvolves_trans hab hbc) (ih h12tl h23tl)

/-- Mapping a pointwise-evolving function evolves the list. -/
theorem forall2_evolves_map (f : DBItem → DBItem)
    (hf : ∀ a, itemEvolves a (f a)) (l : List DBItem) :
    List.Forall₂ itemEvolves l (l.map f) := by
  induction l with
  | nil => exact List.Forall₂.nil
  | cons a l ih => exact List.Forall₂.cons (hf a) ih

/-- Updating the first match with an evolving function evolves the list. -/
theorem forall2_evolves_updateFirstBy (p : DBItem → Bool) (f : DBItem → DBItem) :
    ∀ (l : List DBItem), (∀ a, p a = true → itemEvolves a (f a)) →
      List.Forall₂ itemEvolves l (updateFirstBy p f l) := by
  intro l
  induction l with
  | nil => intro _; exact List.Forall₂.nil
  | cons a l ih =>
    intro hf
    unfold updateFirstBy
    by_cases hp : p a = true
    · rw [if_pos hp]
      exact List.Forall₂.cons (hf a hp) (forall2_evolves_refl l)
    · rw [if_neg hp]
      exact List.Forall₂.cons (itemEvolves_refl a) (ih hf)

/-- The retrieval row update only ever decrements a positive use count,
sets the waste flag and clears the placement. -/
theorem retrieveUpdate_evolves (a : DBItem) :
    itemEvolves a (retrieveUpdate a) := by
  refine ⟨rfl, ?_, ?_⟩
  · intro h
    unfold retrieveUpdate
    dsimp only
    split <;> omega
  · intro h
    unfold retrieveUpdate
    dsimp only
    simp [h]

/-- The usage row update evolves any row with a positive use count. -/
theorem usageUpdate_evolves (a : DBItem) (hpos : a.remainingUses > 0) :
    itemEvolves a (usageUpdate a) := by
  refine ⟨rfl, ?_, ?_⟩
  · intro h
    unfold usageUpdate
    dsimp only
    omega
  · intro h
    unfold usageUpdate
    dsimp only
    simp [h]

/-- Updating the row found by `find?` with a function that evolves it
evolves the list. -/
theorem forall2_evolves_updateFound (p : DBItem → Bool) (f : DBItem → DBItem) :
    ∀ (l : List DBItem) (it : DBItem), l.find? p = some it →
      itemEvolves it (f it) →
      List.Forall₂ itemEvolves l (updateFirstBy p f l) := by
  intro l
  induction l with
  | nil => intro it hfind _; simp at hfind
  | cons a l ih =>
    intro it hfind hit
    rw [List.find?_cons] at hfind
    unfold updateFirstBy
    cases hp : p a with
    | true =>
      rw [hp] at hfind
      dsimp only at hfind
      cases hfind
      rw [if_pos rfl]
      exact List.Forall₂.cons hit (forall2_evolves_refl l)
    | false =>
      rw [hp] at hfind
      dsimp only at hfind
      rw [if_neg (by simp)]
      exact List.Forall₂.cons (itemEvolves_refl a) (ih it hfind hit)

/-- Processing one usage entry evolves the item list. -/
theorem applyUsage_evolves (acc : List DBItem × List SimStatus × List SimStatus)
    (u : SimUsage) :
    List.Forall₂ itemEvolves acc.1 (applyUsage acc u).1 := by
  obtain ⟨items, used, depleted⟩ := acc
  unfold applyUsage
  dsimp only
  cases usageTargetPred u with
  | none => exact forall2_evolves_refl _
  | some p =>
    dsimp only
    cases hfind : items.find? p with
    | none => exact forall2_evolves_refl _
    | some it =>
      dsimp only
      by_cases hpos : it.remainingUses > 0
      · rw [if_pos hpos]
        exact forall2_evolves_updateFound p usageUpdate items it hfind
          (usageUpdate_evolves it hpos)
      · rw [if_neg hpos]
        exact forall2_evolves_refl _

/-- A whole usage list evolves the item list. -/
theorem foldl_applyUsage_evolves (usages : List SimUsage) :
    ∀ (st : List DBItem × List SimStatus × List SimStatus),
      List.Forall₂ itemEvolves st.1 (usages.foldl applyUsage st).1 := by
  induction usages with
  | nil => intro st; exact forall2_evolves_refl _
  | cons u usages ih =>
    intro st
    rw [List.foldl_cons]
    exact forall2_evolves_trans (applyUsage_evolves st u) (ih (applyUsage st u))

/-- Each simulated day evolves the item list. -/
theorem simulateLoop_evolves (usages : List SimUsage) :
    ∀ (n : Nat) (current : Int)
      (st : DB × List SimStatus × List SimStatus × List SimStatus),
      List.Forall₂ itemEvolves st.1.items
        (simulateLoop usages n current st).1.items := by
  intro n
  induction n with
  | zero => intro current st; exact forall2_evolves_refl _
  | succ n ih =>
    intro current st
    obtain ⟨db, used, expired, depleted⟩ := st
    unfold simulateLoop
    dsimp only
    rcases hfold : usages.foldl applyUsage (db.items, used, depleted) with
      ⟨items1, used1, depleted1⟩
    dsimp only
    have h1 : List.Forall₂ itemEvolves db.items items1 := by
      have := foldl_applyUsage_evolves usages (db.items, used, depleted)
      rw [hfold] at this
      exact this
    have h2 : List.Forall₂ itemEvolves items1 (items1.map (fun i =>
        if expiredPred (current + 1) i = true then { i with isWaste := true }
        else i)) := by
      refine forall2_evolves_map _ ?_ _
      intro a
      by_cases he : expiredPred (current + 1) a = true
      · rw [if_pos he]
        exact ⟨rfl, fun h => h, fun _ => rfl⟩
      · rw [if_neg he]
        exact itemEvolves_refl a
    have h3 := ih (current + 1)
      ⟨{ db with
         items := items1.map (fun i =>
           if expiredPred (current + 1) i = true then { i with isWaste := true }
           else i),
         logs := db.logs ++
           [{ timestamp := current + 1, userId := "system",
              actionType := "simulation", itemId := "N/A",
              fromContainer := none, toContainer := none,
              details := "Simulated day" }] },
       used1,
       expired ++ (items1.filter (expiredPred (current + 1))).map (fun i =>
         { itemId := i.id, name := i.name, remainingUses := none }),
       depleted1⟩
    exact forall2_evolves_trans h1 (forall2_evolves_trans h2 h3)

/-- Executing a retrieval evolves every item row pointwise. -/
theorem retrieveItem_evolves (db : DB) (itemId userId : String)
    (ts : Option Int) :
    List.Forall₂ itemEvolves db.items (retrieveItem db itemId userId ts).2.items := by
  unfold retrieveItem
  cases ts with
  | none => exact forall2_evolves_refl _
  | some t =>
    dsimp only
    cases hf : db.items.find? (fun i => i.id = itemId) with
    | none => exact forall2_evolves_refl _
    | some item =>
      dsimp only
      exact forall2_evolves_updateFirstBy _ retrieveUpdate db.items
        (fun a _ => retrieveUpdate_evolves a)

/-- A whole simulation request evolves every item row pointwise. -/
theorem simulateDays_evolves (db : DB) (numOfDays : Option Int)
    (toTimestamp : Option (Option Int)) (usages : List SimUsage)
    (nowDefault : Int) :
    List.Forall₂ itemEvolves db.items
      (simulateDays db numOfDays toTimestamp usages nowDefault).1.items := by
  unfold simulateDays
  exact simulateLoop_evolves usages _ _ (db, [], [], [])

/-- Any single core operation evolves every item row pointwise. -/
theorem applyCoreOp_evolves (db : DB) (op : CoreOp) :
    List.Forall₂ itemEvolves db.items (applyCoreOp db op).items := by
  cases op with
  | retrieveOp itemId userId ts => exact retrieveItem_evolves db itemId userId ts
  | simulateOp numOfDays toTimestamp usages nowDefault =>
    exact simulateDays_evolves db numOfDays toTimestamp usages nowDefault

/-- From pointwise evolution, any element of the evolved list has an
ancestor in the original list. -/
theorem forall2_exists_left {R : DBItem → DBItem → Prop} :
    ∀ {l1 l2 : List DBItem}, List.Forall₂ R l1 l2 →
      ∀ b ∈ l2, ∃ a ∈ l1, R a b := by
  intro l1
  induction l1 with
  | nil =>
    intro l2 h b hb
    cases h
    simp at hb
  | cons a l1 ih =>
    intro l2 h b hb
    cases h with
    | cons hab htl =>
      rcases List.mem_cons.mp hb with rfl | hb'
      · exact ⟨a, List.mem_cons_self _ _, hab⟩
      · obtain ⟨x, hx, hxr⟩ := ih htl b hb'
        exact ⟨x, List.mem_cons_of_mem _ hx, hxr⟩

/-- Pointwise evolution relates equal positions. -/
theorem forall2_get? {R : DBItem → DBItem → Prop} :
    ∀ {l1 l2 : List DBItem}, List.Forall₂ R l1 l2 →
      ∀ (k : Nat) (a b : DBItem), l1[k]? = some a → l2[k]? = some b → R a b := by
  intro l1
  induction l1 with
  | nil =>
    intro l2 h k a b ha _
    simp at ha
  | cons x l1 ih =>
    intro l2 h k a b ha hb
    cases h with
    | cons hxy htl =>
      cases k with
      | zero =>
        simp only [List.getElem?_cons_zero, Option.some.injEq] at ha hb
        rw [← ha, ← hb]
        exact hxy
      | succ k =>
        simp only [List.getElem?_cons_succ] at ha hb
        exact ih htl k a b ha hb

instance : IsTotal DBItem (fun a b => b.mass ≤ a.mass) :=
  ⟨fun a b => (le_total b.mass a.mass)⟩

instance : IsTrans DBItem (fun a b => b.mass ≤ a.mass) :=
  ⟨fun _ _ _ h1 h2 => le_trans h2 h1⟩

/-- The return-plan fold agrees with the greedy knapsack: starting from any
accumulator, the produced plan ids, manifest entries and totals extend the
accumulator by exactly the greedy selection continued from the running
totals. -/
theorem foldl_returnPlanFold_greedy (db : DB) (ucid : String)
    (maxWeight avail : Rat) :
    ∀ (l : List DBItem)
      (st : List ReturnPlanStep × List RetrievalStep × List ReturnManifestItem ×
        Rat × Rat × Nat),
      ((l.foldl (returnPlanFold db ucid maxWeight avail) st).1.map
          (fun s => s.itemId) =
        st.1.map (fun s => s.itemId) ++
          (greedyKnapsack maxWeight avail l st.2.2.2.2.1 st.2.2.2.1).map
            (fun i => i.id)) ∧
      ((l.foldl (returnPlanFold db ucid maxWeight avail) st).2.2.1 =
        st.2.2.1 ++
          (greedyKnapsack maxWeight avail l st.2.2.2.2.1 st.2.2.2.1).map
            (fun i => ({ itemId := i.id, name := i.name, reason := "Waste" } :
              ReturnManifestItem))) ∧
      ((l.foldl (returnPlanFold db ucid maxWeight avail) st).2.2.2.1 =
        st.2.2.2.1 +
          ((greedyKnapsack maxWeight avail l st.2.2.2.2.1 st.2.2.2.1).map
            itemVolume).sum) ∧
      ((l.foldl (returnPlanFold db ucid maxWeight avail) st).2.2.2.2.1 =
        st.2.2.2.2.1 +
          ((greedyKnapsack maxWeight avail l st.2.2.2.2.1 st.2.2.2.1).map
            (fun i => i.mass)).sum) := by
  intro l
  induction l with
  | nil =>
    intro st
    simp [greedyKnapsack]
  | cons i rest ih =>
    intro st
    obtain ⟨plan, rsteps, rItems, totalV, totalW, counter⟩ := st
    rw [List.foldl_cons]
    by_cases hw : totalW + i.mass > maxWeight
    · have hstep : returnPlanFold db ucid maxWeight avail
          (plan, rsteps, rItems, totalV, totalW, counter) i =
          (plan, rsteps, rItems, totalV, totalW, counter) := by
        unfold returnPlanFold
        dsimp only
        rw [if_pos hw]
      rw [hstep]
      unfold greedyKnapsack
      rw [if_neg (fun hcon => absurd hcon.1 (not_le.mpr hw))]
      exact ih (plan, rsteps, rItems, totalV, totalW, counter)
    · by_cases hv : totalV + itemVolume i > avail
      · have hstep : returnPlanFold db ucid maxWeight avail
            (plan, rsteps, rItems, totalV, totalW, counter) i =
            (plan, rsteps, rItems, totalV, totalW, counter) := by
          unfold returnPlanFold
          dsimp only
          rw [if_neg hw, if_pos hv]
        rw [hstep]
        unfold greedyKnapsack
        rw [if_neg (fun hcon => absurd hcon.2 (not_le.mpr hv))]
        exact ih (plan, rsteps, rItems, totalV, totalW, counter)
      · have hstep : returnPlanFold db ucid maxWeight avail
            (plan, rsteps, rItems, totalV, totalW, counter) i =
            (plan ++ [{ step := counter, itemId := i.id, itemName := i.name,
                        fromContainer := containerIdOf i, toContainer := ucid }],
             (if (containerIdOf i).isSome then
                rsteps ++ renumberSteps rsteps.length (findItem db (some i.id) none).2.2
              else rsteps),
             rItems ++ [{ itemId := i.id, name := i.name, reason := "Waste" }],
             totalV + itemVolume i, totalW + i.mass, counter + 1) := by
          unfold returnPlanFold
          dsimp only
          rw [if_neg hw, if_neg hv]
        rw [hstep]
        unfold greedyKnapsack
        rw [if_pos (show totalW + i.mass ≤ maxWeight ∧
          totalV + itemVolume i ≤ avail from ⟨not_lt.mp hw, not_lt.mp hv⟩)]
        obtain ⟨ih1, ih2, ih3, ih4⟩ := ih
          (plan ++ [{ step := counter, itemId := i.id, itemName := i.name,
                      fromContainer := containerIdOf i, toContainer := ucid }],
           (if (containerIdOf i).isSome then
              rsteps ++ renumberSteps rsteps.length (findItem db (some i.id) none).2.2
            else rsteps),
           rItems ++ [{ itemId := i.id, name := i.name, reason := "Waste" }],
           totalV + itemVolume i, totalW + i.mass, counter + 1)
        refine ⟨?_, ?_, ?_, ?_⟩
        · rw [ih1]
          dsimp only
          rw [List.map_append, List.map_cons, List.append_assoc]
          rfl
        · rw [ih2]
          dsimp only
          rw [List.map_cons, List.append_assoc]
          rfl
        · rw [ih3]
          dsimp only
          rw [List.map_cons, List.sum_cons, add_assoc]
        · rw [ih4]
          dsimp only
          rw [List.map_cons, List.sum_cons, add_assoc]

/-! ## Claim theorems -/

/-- C1: the placement planner violates the containment invariant I1.
`_find_position_in_container` finds a fit using a rotated orientation
(5,10,5) of the 10×5×5 item, but the returned placement and the occupancy
marking use the item's base dimensions: the reported end coordinate 10
exceeds the container width 5, so the placed box is not inside the
container interior. -/
theorem placeItems_violates_containment :
    placeItems [wideItem] [slimContainer] =
      .ok ([{ itemId := "I", containerId := "A",
              position := ⟨⟨0, 0, 0⟩, ⟨10, 5, 5⟩⟩ }], []) ∧
    ¬ ((10 : Int) ≤ slimContainer.width) := by
  constructor
  · rfl
  · decide

/-- C3 (counterexample): with the front-bottom cell of a 2×1×2 container
occupied, the search for a unit cube returns origin (0,0,1), although
(1,0,0) is also free, in range, and strictly smaller in the claimed
lexicographic (z,y,x) order — the scan is not in (z,y,x) order. -/
theorem firstFit_not_zyx_order :
    tryOrientation occupiedContainer (1, 1, 1) = some (0, 0, 1) ∧
    findPositionInContainer unitCubeItem occupiedContainer = some (0, 0, 1) ∧
    regionOccupied occupiedContainer.space
      (sliceRegion occupiedContainer.width occupiedContainer.depth
        occupiedContainer.height (1, 0, 0) (1, 1, 1)) = false ∧
    inScanRange occupiedContainer (1, 1, 1) (1, 0, 0) ∧
    zyxLt (1, 0, 0) (0, 0, 1) = true := by
  refine ⟨by decide, by decide, by decide, by decide, by decide⟩

/-- C3 (amended): the position search scans origins in lexicographic
(x, y, z) order — outer loop x, middle y, inner z — and returns the first
free origin for the requested oriented dimensions; hence the returned
origin is free, in range, and minimal among the free in-range origins in
(x, y, z) order, and when `none` is returned no in-range origin is free. -/
theorem firstFit_minimal_xyz (c : ContainerData) (o : Int × Int × Int) :
    (∀ p, tryOrientation c o = some p →
      regionOccupied c.space (sliceRegion c.width c.depth c.height p o) = false ∧
      inScanRange c o p ∧
      ∀ q, inScanRange c o q →
        regionOccupied c.space (sliceRegion c.width c.depth c.height q o) = false →
        xyzLe p q) ∧
    (tryOrientation c o = none →
      ∀ q, inScanRange c o q →
        regionOccupied c.space (sliceRegion c.width c.depth c.height q o) = true) := by
  constructor
  · intro p hp
    unfold tryOrientation at hp
    split at hp
    · exact absurd hp (by simp)
    · have hfree := List.find?_some hp
      have hmem := List.mem_of_find?_eq_some hp
      simp only [Bool.not_eq_true'] at hfree
      refine ⟨hfree, ?_, ?_⟩
      · have := mem_scanOrigins.mp hmem
        exact ⟨this.1, this.2.1, this.2.2.1, this.2.2.2.1, this.2.2.2.2.1,
               this.2.2.2.2.2⟩
      · intro q hq hqfree
        have hqmem : q ∈ scanOrigins c.width c.depth c.height o.1 o.2.1 o.2.2 :=
          mem_scanOrigins.mpr ⟨hq.1, hq.2.1, hq.2.2.1, hq.2.2.2.1,
            hq.2.2.2.2.1, hq.2.2.2.2.2⟩
        have := find_first_min (pairwise_scanOrigins _ _ _ _ _ _) hp q hqmem
          (by simp [hqfree])
        rcases this with rfl | hlt
        · exact Or.inr ⟨rfl, Or.inr ⟨rfl, le_refl _⟩⟩
        · rcases hlt with h1 | ⟨h1, h2 | ⟨h2, h3⟩⟩
          · exact Or.inl h1
          · exact Or.inr ⟨h1, Or.inl h2⟩
          · exact Or.inr ⟨h1, Or.inr ⟨h2, le_of_lt h3⟩⟩
  · intro hn q hq
    unfold tryOrientation at hn
    split at hn
    · rename_i hbig
      exfalso
      rcases hbig with h | h | h
      · have := hq.1; have := hq.2.1; omega
      · have := hq.2.2.1; have := hq.2.2.2.1; omega
      · have := hq.2.2.2.2.1; have := hq.2.2.2.2.2; omega
    · have hqmem : q ∈ scanOrigins c.width c.depth c.height o.1 o.2.1 o.2.2 :=
        mem_scanOrigins.mpr ⟨hq.1, hq.2.1, hq.2.2.1, hq.2.2.2.1,
          hq.2.2.2.2.1, hq.2.2.2.2.2⟩
      have := List.find?_eq_none.mp hn q hqmem
      simpa using this

/-- Building the container dict fails exactly when one of the remaining
containers has a negative dimension (the `np.zeros` allocation raises). -/
theorem buildContainersDictAux_error_iff (cs : List ContainerB) :
    ∀ acc, (∃ e, buildContainersDictAux acc cs = .error e) ↔
      ∃ c ∈ cs, c.width < 0 ∨ c.depth < 0 ∨ c.height < 0 := by
  induction cs with
  | nil => intro acc; simp [buildContainersDictAux]
  | cons c cs ih =>
    intro acc
    by_cases hbad : c.width < 0 ∨ c.depth < 0 ∨ c.height < 0
    · simp only [buildContainersDictAux, convertContainerToInternal, if_pos hbad]
      simp [hbad]
    · simp only [buildContainersDictAux, convertContainerToInternal, if_neg hbad]
      simp [hbad, ih]

/-- C9 (amended): the planner returns a partial result rather than raising
for unplaceable items, and it raises exactly when some container of the
request has a negative dimension.  Negative item dimensions and duplicate
ids are not rejected (see `placeItems_accepts_invalid_request`). -/
theorem placeItems_error_iff_negative_container
    (reqItems : List ItemB) (reqContainers : List ContainerB) :
    (∃ e, placeItems reqItems reqContainers = .error e) ↔
      ∃ c ∈ reqContainers, c.width < 0 ∨ c.depth < 0 ∨ c.height < 0 := by
  rw [← buildContainersDictAux_error_iff reqContainers []]
  unfold placeItems
  cases h : buildContainersDict reqContainers with
  | error e => simp [h, buildContainersDict] at h ⊢; exact ⟨e, h⟩
  | ok dict => simp [h, buildContainersDict] at h ⊢; simp [h]

/-- C9 (counterexample): a request with a duplicated item id, a duplicated
container id and a negative item dimension is invalid per the claim, yet
the planner raises no exception — it returns placements (its result on
such degenerate input follows numpy slice semantics for the negative
extent). -/
theorem placeItems_accepts_invalid_request :
    placeItems duplicateIdItems duplicateIdContainers =
      .ok ([{ itemId := "D", containerId := "A",
              position := ⟨⟨0, 0, 0⟩, ⟨-3, 4, 4⟩⟩ },
            { itemId := "D", containerId := "A",
              position := ⟨⟨1, 0, 0⟩, ⟨3, 2, 2⟩⟩ }], []) ∧
    ¬ (duplicateIdItems.map (fun i => i.itemId)).Nodup ∧
    ¬ (duplicateIdContainers.map (fun c => c.containerId)).Nodup ∧
    (∃ i ∈ duplicateIdItems, i.width < 0) := by
  refine ⟨by rfl, by decide, by decide, ?_⟩
  exact ⟨⟨"D", "d", -3, 4, 4, 10, none, 1, "Z"⟩, by decide, by decide⟩

/-- Witness for `firstFit_minimal_xyz` at the concrete occupied container:
the returned origin (0,0,1) is free, in range, and (x,y,z)-minimal among
free in-range origins such as (1,0,0). -/
theorem firstFit_minimal_xyz_witness :
    regionOccupied occupiedContainer.space
      (sliceRegion occupiedContainer.width occupiedContainer.depth
        occupiedContainer.height (0, 0, 1) (1, 1, 1)) = false ∧
    inScanRange occupiedContainer (1, 1, 1) (0, 0, 1) ∧
    xyzLe (0, 0, 1) (1, 0, 0) := by
  have h := (firstFit_minimal_xyz occupiedContainer (1, 1, 1)).1 (0, 0, 1)
    (by decide)
  exact ⟨h.1, h.2.1, h.2.2 (1, 0, 0) (by decide) (by decide)⟩

/-- C2 (counterexample): in the concrete arrangement, the plan removes only
the direct blockers A and B, although S rests on A and therefore belongs to
the spec's support-closure B*; moreover A and B share depth 0 yet are
emitted with A (height 0) before B (height 1), violating the claimed
(y ascending, z descending) order. -/
theorem retrieval_misses_support_closure :
    ((calcRetrievalSteps targetT retrievalScenario).filter
        (fun s => s.action = "remove")).map (fun s => s.itemId) = ["A", "B"] ∧
    blockerPred ⟨"C", 0, 2, 0⟩ targetT blockerA = true ∧
    specSupports ⟨0, 0, 0, 1, 1, 2⟩ ⟨0, 0, 2, 1, 1, 1⟩ = true ∧
    blockerPred ⟨"C", 0, 2, 0⟩ targetT riderS = false ∧
    posDepthOf blockerA = posDepthOf blockerB ∧
    blockerA.placement.map (fun p => p.posH) = some 0 ∧
    blockerB.placement.map (fun p => p.posH) = some 1 := by
  refine ⟨by decide, by decide, by decide, by decide, by decide, by decide,
    by decide⟩

/-- C2 (amended): for a placed target not flush with the front face, the
plan consists of `remove`/`setAside` pairs for exactly the direct blockers
(no support-closure is computed), sorted by depth ascending (ties keep
store order), then `retrieve(target)`, then `placeBack` steps in reverse
order of the removals. -/
theorem retrieval_plan_shape (target : DBItem) (dbItems : List DBItem)
    (tp : DBPlacement) (hpl : target.placement = some tp) (hd : tp.posD ≠ 0) :
    (calcRetrievalSteps target dbItems).map (fun s => (s.action, s.itemId)) =
      ((sortedBlockersOf tp target dbItems).flatMap
        (fun b => [("remove", b.id), ("setAside", b.id)])) ++
      [("retrieve", target.id)] ++
      ((sortedBlockersOf tp target dbItems).reverse.map
        (fun b => (("placeBack" : String), b.id))) ∧
    (sortedBlockersOf tp target dbItems).Perm
      (dbItems.filter (blockerPred tp target)) ∧
    (sortedBlockersOf tp target dbItems).Pairwise
      (fun a b => posDepthOf a ≤ posDepthOf b) := by
  refine ⟨?_, List.perm_insertionSort _ _, List.sorted_insertionSort _ _⟩
  unfold calcRetrievalSteps
  rw [hpl]
  simp only [hd, if_false, List.map_append]
  rw [removePairsOf_proj, placeBacksOf_proj]
  rfl

/-- C4 (counterexample): two placed items named "N": P (priority 100, one
blocker, spec score 27/40) and R (priority 0, no blocker, spec score 1/2).
The spec's score formula prefers P, but `find_item` returns R, the
candidate with the fewer retrieval steps — the score formula is not used. -/
theorem search_ignores_spec_score :
    (findItem searchScenario none (some "N")).2.1 =
      some { itemId := "R", name := "N", containerId := "D", zone := "Z",
             position := ⟨⟨0, 0, 0⟩, ⟨1, 1, 1⟩⟩ } ∧
    specScore 100 candidateP 1 > specScore 100 candidateR 0 ∧
    (searchScenario.items.filter
      (blockerPred ⟨"C", 0, 5, 0⟩ candidateP)).length = 1 ∧
    (searchScenario.items.filter
      (blockerPred ⟨"D", 0, 0, 0⟩ candidateR)).length = 0 ∧
    candidateP.name = "N" ∧ candidateR.name = "N" := by
  refine ⟨by rfl, ?_, by decide, by decide, by decide, by decide⟩
  show specScore 100 candidateP 1 > specScore 100 candidateR 0
  simp only [specScore, candidateP, candidateR]
  norm_num

/-- C4 (amended): searching by name reports "not found" when no matching
candidate is placed in a container, and otherwise returns the placed
candidate whose retrieval plan has the fewest steps, ties broken towards
the earlier expiry date (a missing expiry date counts as latest); the
spec's blocker/expiry/priority score is not computed. -/
theorem search_best_by_fewest_steps (db : DB) (nm : String) :
    ((∀ o ∈ db.items, o.name = nm → (containerIdOf o).isNone = true) →
      (findItem db none (some nm)).1 = false) ∧
    (∀ si steps, findItem db none (some nm) = (true, some si, steps) →
      ∃ best, best ∈ db.items ∧ best.name = nm ∧
        (containerIdOf best).isNone = false ∧
        si.itemId = best.id ∧ steps = calcRetrievalSteps best db.items ∧
        ∀ o ∈ db.items, o.name = nm → (containerIdOf o).isNone = false →
          ¬ keyLt (searchKey db.items o) (searchKey db.items best)) := by
  have hq : ∀ i, i ∈ db.items.filter (fun i => some i.name = some nm) ↔
      i ∈ db.items ∧ i.name = nm := by
    intro i
    rw [List.mem_filter]
    simp
  obtain ⟨hfn, hfs⟩ := foldl_chooseBest_spec db.items
    (db.items.filter (fun i => some i.name = some nm)) none
    (by intro p hp; cases hp)
  constructor
  · intro hall
    unfold findItem
    dsimp only
    by_cases hemp : (db.items.filter (fun i => some i.name = some nm)).isEmpty = true
    · rw [if_pos hemp]
    · rw [if_neg hemp]
      cases hres : (db.items.filter (fun i => some i.name = some nm)).foldl
          (chooseBest db.items) none with
      | none => rfl
      | some p =>
        obtain ⟨best, ms⟩ := p
        obtain ⟨-, h2, h3, -, -⟩ := hfs best ms hres
        rcases h3 with h3 | h3
        · cases h3
        · obtain ⟨hmem, hname⟩ := (hq best).mp h3
          rw [hall best hmem hname] at h2
          cases h2
  · intro si steps h
    unfold findItem at h
    dsimp only at h
    by_cases hemp : (db.items.filter (fun i => some i.name = some nm)).isEmpty = true
    · rw [if_pos hemp] at h
      simp at h
    · rw [if_neg hemp] at h
      cases hres : (db.items.filter (fun i => some i.name = some nm)).foldl
          (chooseBest db.items) none with
      | none =>
        rw [hres] at h
        simp at h
      | some p =>
        obtain ⟨best, ms⟩ := p
        rw [hres] at h
        dsimp only at h
        obtain ⟨-, h2, h3, h4, -⟩ := hfs best ms hres
        obtain ⟨hmem, hname⟩ : best ∈ db.items ∧ best.name = nm := by
          rcases h3 with h3 | h3
          · cases h3
          · exact (hq best).mp h3
        cases hbp : best.placement with
        | none =>
          exfalso
          unfold containerIdOf at h2
          rw [hbp] at h2
          cases h2
        | some bp =>
          rw [hbp] at h
          dsimp only at h
          cases hcont : db.containers.find? (fun c => c.id = bp.containerId) with
          | none =>
            rw [hcont] at h
            simp at h
          | some cont =>
            rw [hcont] at h
            dsimp only at h
            simp only [Prod.mk.injEq, Option.some.injEq] at h
            obtain ⟨-, hsi, hsteps⟩ := h
            refine ⟨best, hmem, hname, ?_, ?_, hsteps.symm, ?_⟩
            · unfold containerIdOf
              rw [hbp]
              rfl
            · rw [← hsi]
            · intro o ho hon hop
              exact h4 o ((hq o).mpr ⟨ho, hon⟩) hop

/-- Witness for `search_best_by_fewest_steps` at the concrete scenario:
the search for "N" returns the placed candidate R, and the other placed
candidate P named "N" does not strictly beat R's selection key. -/
theorem search_best_by_fewest_steps_witness :
    candidateR ∈ searchScenario.items ∧ candidateR.name = "N" ∧
    (containerIdOf candidateR).isNone = false ∧
    ¬ keyLt (searchKey searchScenario.items candidateP)
      (searchKey searchScenario.items candidateR) := by
  obtain ⟨best, hmem, hname, hplaced, hid, hsteps, hmin⟩ :=
    (search_best_by_fewest_steps searchScenario "N").2
      { itemId := "R", name := "N", containerId := "D", zone := "Z",
        position := ⟨⟨0, 0, 0⟩, ⟨1, 1, 1⟩⟩ }
      [{ step := 1, action := "retrieve", itemId := "R", itemName := "N" }]
      (by rfl)
  have hbest : best = candidateR := by
    rcases List.mem_cons.mp hmem with h | h
    · exfalso
      rw [h] at hid
      exact absurd hid (by decide)
    rcases List.mem_cons.mp h with h2 | h2
    · exfalso
      rw [h2] at hid
      exact absurd hid (by decide)
    rcases List.mem_cons.mp h2 with h3 | h3
    · exact h3
    · simp at h3
  rw [hbest] at hmin
  refine ⟨by decide, by decide, by decide, ?_⟩
  exact hmin candidateP (by decide) (by decide) (by decide)

/-- Witness for `retrieval_plan_shape` at the concrete arrangement. -/
theorem retrieval_plan_shape_witness :
    (calcRetrievalSteps targetT retrievalScenario).map
        (fun s => (s.action, s.itemId)) =
      ((sortedBlockersOf ⟨"C", 0, 2, 0⟩ targetT retrievalScenario).flatMap
        (fun b => [("remove", b.id), ("setAside", b.id)])) ++
      [("retrieve", targetT.id)] ++
      ((sortedBlockersOf ⟨"C", 0, 2, 0⟩ targetT retrievalScenario).reverse.map
        (fun b => (("placeBack" : String), b.id))) :=
  (retrieval_plan_shape targetT retrievalScenario ⟨"C", 0, 2, 0⟩ rfl
    (by decide)).1

/-- C5: executing a retrieval plan in order — remove and retrieve take
items out, setAside changes nothing, placeBack restores the original
placement — leaves the arrangement a permutation of the original minus the
retrieved item, and the placeBack sequence is exactly the reverse of the
setAside sequence.  (The execution semantics is modelled from the spec;
the plan itself is the code's.) -/
theorem plan_execution_restores (target : DBItem) (dbItems : List DBItem)
    (tp : DBPlacement) (hpl : target.placement = some tp)
    (hnd : (dbItems.map (fun i => i.id)).Nodup) :
    (execPlan dbItems (calcRetrievalSteps target dbItems)).Perm
      (dbItems.filter (fun i => i.id ≠ target.id)) ∧
    ((calcRetrievalSteps target dbItems).filter
        (fun s => s.action = "placeBack")).map (fun s => s.itemId) =
      (((calcRetrievalSteps target dbItems).filter
          (fun s => s.action = "setAside")).map (fun s => s.itemId)).reverse := by
  by_cases hd : tp.posD = 0
  · have hsteps : calcRetrievalSteps target dbItems =
        [{ step := 1, action := "retrieve",
           itemId := target.id, itemName := target.name }] := by
      unfold calcRetrievalSteps
      rw [hpl]
      dsimp only
      rw [if_pos hd]
    rw [hsteps]
    constructor
    · unfold execPlan
      rw [List.foldl_cons, List.foldl_nil, applyStep_retrieve]
    · have h1 : (decide ((("retrieve" : String)) = "placeBack")) = false := by decide
      have h2 : (decide ((("retrieve" : String)) = "setAside")) = false := by decide
      simp [List.filter_cons, h1, h2]
  · have hsteps : calcRetrievalSteps target dbItems =
        removePairsOf (sortedBlockersOf tp target dbItems) ++
        [{ step := (removePairsOf (sortedBlockersOf tp target dbItems)).length + 1,
           action := "retrieve", itemId := target.id, itemName := target.name }] ++
        placeBacksOf
          ((removePairsOf (sortedBlockersOf tp target dbItems)).length + 1)
          (sortedBlockersOf tp target dbItems) := by
      unfold calcRetrievalSteps
      rw [hpl]
      dsimp only
      rw [if_neg hd]
    have hSperm : (sortedBlockersOf tp target dbItems).Perm
        (dbItems.filter (blockerPred tp target)) :=
      List.perm_insertionSort _ _
    have hSmem : ∀ b ∈ sortedBlockersOf tp target dbItems,
        b ∈ dbItems ∧ blockerPred tp target b = true := by
      intro b hb
      have := hSperm.mem_iff.mp hb
      exact List.mem_filter.mp this
    have hfind : ∀ b ∈ sortedBlockersOf tp target dbItems,
        dbItems.find? (fun i => i.id = b.id) = some b :=
      fun b hb => find?_eq_self_of_nodup hnd (hSmem b hb).1
    have hStarget : ∀ b ∈ sortedBlockersOf tp target dbItems,
        b.id ≠ target.id := by
      intro b hb
      have hbp := (hSmem b hb).2
      unfold blockerPred at hbp
      simp only [Bool.and_eq_true, decide_eq_true_eq] at hbp
      exact hbp.1.2
    have hPt_of_contains : ∀ x : DBItem,
        (((sortedBlockersOf tp target dbItems).map
          (fun b => b.id)).contains x.id) = true →
        (decide (x.id ≠ target.id)) = true := by
      intro x hc
      rw [List.contains_eq_any_beq] at hc
      simp only [List.any_eq_true, beq_iff_eq] at hc
      obtain ⟨idv, hidv, rfl⟩ := hc
      obtain ⟨s, hs, hsid⟩ := List.mem_map.mp hidv
      rw [← hsid]
      simpa using hStarget s hs
    have hfe : ∀ x ∈ dbItems,
        (((sortedBlockersOf tp target dbItems).map
          (fun b => b.id)).contains x.id) = blockerPred tp target x := by
      intro x hx
      cases hbp : blockerPred tp target x with
      | true =>
        have hxS : x ∈ sortedBlockersOf tp target dbItems :=
          hSperm.mem_iff.mpr (List.mem_filter.mpr ⟨hx, hbp⟩)
        rw [List.contains_eq_any_beq]
        simp only [List.any_eq_true, beq_iff_eq]
        exact ⟨x.id, List.mem_map_of_mem _ hxS, rfl⟩
      | false =>
        cases hc : (((sortedBlockersOf tp target dbItems).map
            (fun b => b.id)).contains x.id) with
        | false => rfl
        | true =>
          exfalso
          rw [List.contains_eq_any_beq] at hc
          simp only [List.any_eq_true, beq_iff_eq] at hc
          obtain ⟨idv, hidv, hxid⟩ := hc
          obtain ⟨s, hs, hsid⟩ := List.mem_map.mp hidv
          have hsdb := (hSmem s hs).1
          have hxe : x = s := by
            have hinj := List.inj_on_of_nodup_map hnd
            exact hinj hx hsdb (by rw [hxid, hsid])
          rw [hxe, (hSmem s hs).2] at hbp
          cases hbp
    constructor
    · unfold execPlan
      rw [hsteps]
      rw [List.foldl_append, List.foldl_append, exec_removePairsOf,
        List.foldl_cons, List.foldl_nil, applyStep_retrieve,
        exec_placeBacksOf dbItems _ _ _ hfind, List.filter_filter]
      have hA : (dbItems.filter (fun a =>
            (decide (a.id ≠ target.id)) &&
            !(((sortedBlockersOf tp target dbItems).map
              (fun b => b.id)).contains a.id))) =
          (dbItems.filter (fun i => i.id ≠ target.id)).filter
            (fun x => !(((sortedBlockersOf tp target dbItems).map
              (fun b => b.id)).contains x.id)) := by
        rw [List.filter_filter]
        apply List.filter_congr
        intro x _
        exact Bool.and_comm _ _
      have hB : (dbItems.filter (fun i => i.id ≠ target.id)).filter
            (fun x => !(!(((sortedBlockersOf tp target dbItems).map
              (fun b => b.id)).contains x.id))) =
          dbItems.filter (blockerPred tp target) := by
        rw [List.filter_filter]
        rw [← List.filter_congr hfe]
        apply List.filter_congr
        intro x hx
        rw [Bool.not_not]
        cases hc : (((sortedBlockersOf tp target dbItems).map
            (fun b => b.id)).contains x.id) with
        | false => rfl
        | true =>
          rw [hPt_of_contains x hc]
          rfl
      have hrev : ((sortedBlockersOf tp target dbItems).reverse).Perm
          (dbItems.filter (blockerPred tp target)) :=
        ((sortedBlockersOf tp target dbItems).reverse_perm).trans hSperm
      have h2 : ((sortedBlockersOf tp target dbItems).reverse).Perm
          ((dbItems.filter (fun i => i.id ≠ target.id)).filter
            (fun x => !(!(((sortedBlockersOf tp target dbItems).map
              (fun b => b.id)).contains x.id)))) := by
        rw [hB]
        exact hrev
      have h3 : (((dbItems.filter (fun i => i.id ≠ target.id)).filter
            (fun x => !(((sortedBlockersOf tp target dbItems).map
              (fun b => b.id)).contains x.id))) ++
          ((dbItems.filter (fun i => i.id ≠ target.id)).filter
            (fun x => !(!(((sortedBlockersOf tp target dbItems).map
              (fun b => b.id)).contains x.id))))).Perm
          (dbItems.filter (fun i => i.id ≠ target.id)) :=
        List.filter_append_perm _ _
      rw [hA]
      exact (List.Perm.append (List.Perm.refl _) h2).trans h3
    · rw [filter_action_proj, filter_action_proj, hsteps]
      rw [List.map_append, List.map_append, removePairsOf_proj, placeBacksOf_proj]
      have hne1 : ((("retrieve" : String)) = "placeBack") = False := by
        simp only [eq_iff_iff, iff_false]
        decide
      have hne2 : ((("retrieve" : String)) = "setAside") = False := by
        simp only [eq_iff_iff, iff_false]
        decide
      simp only [List.map_cons, List.map_nil, List.filter_append,
        List.filter_cons, List.filter_nil, decide_eq_true_eq, hne1, hne2,
        if_false, pairlist_filter_placeBack, backlist_filter_setAside,
        List.nil_append, List.append_nil, List.map_append,
        pairlist_filter_setAside, backlist_filter_placeBack,
        List.filter_reverse, List.map_reverse, List.reverse_nil]

/-- Witness for `plan_execution_restores` at the concrete arrangement:
executing the plan for T yields a permutation of the arrangement without
T, and the placeBacks mirror the setAsides. -/
theorem plan_execution_restores_witness :
    (execPlan retrievalScenario (calcRetrievalSteps targetT retrievalScenario)).Perm
      (retrievalScenario.filter (fun i => i.id ≠ targetT.id)) ∧
    ((calcRetrievalSteps targetT retrievalScenario).filter
        (fun s => s.action = "placeBack")).map (fun s => s.itemId) =
      (((calcRetrievalSteps targetT retrievalScenario).filter
          (fun s => s.action = "setAside")).map (fun s => s.itemId)).reverse :=
  plan_execution_restores targetT retrievalScenario ⟨"C", 0, 2, 0⟩ rfl
    (by decide)

/-- C6 (counterexample): retrieving an existing item whose remaining uses
are already 0 succeeds, but `remaining_uses` is not decremented (it stays
0 rather than becoming −1), contradicting the claim that every successful
retrieval decrements it by one. -/
theorem retrieve_no_decrement_when_depleted :
    (retrieveItem depletedScenario "U" "usr" (some 0)).1 = true ∧
    depletedItem.remainingUses = 0 ∧
    ((retrieveItem depletedScenario "U" "usr" (some 0)).2.items.find?
      (fun i => i.id = "U")).map (fun i => i.remainingUses) = some 0 := by
  refine ⟨by rfl, by decide, by rfl⟩

/-- C6 (amended): a successful retrieval of an existing item decrements
`remaining_uses` when it is positive (leaving it unchanged at zero), sets
the waste flag when the count is zero afterwards, clears the placement,
leaves every other row untouched, and appends exactly one retrieval log
record. -/
theorem retrieve_item_effects (db : DB) (itemId userId : String) (t : Int)
    (item : DBItem)
    (hfind : db.items.find? (fun i => i.id = itemId) = some item) :
    (retrieveItem db itemId userId (some t)).1 = true ∧
    (retrieveItem db itemId userId (some t)).2.items.find?
        (fun i => i.id = itemId) =
      some { item with
             remainingUses := if item.remainingUses > 0
               then item.remainingUses - 1 else item.remainingUses,
             isWaste := if (if item.remainingUses > 0
               then item.remainingUses - 1 else item.remainingUses) = 0
               then true else item.isWaste,
             placement := none } ∧
    (∀ x ∈ db.items, x.id ≠ itemId →
      x ∈ (retrieveItem db itemId userId (some t)).2.items) ∧
    (retrieveItem db itemId userId (some t)).2.logs =
      db.logs ++ [{ timestamp := t, userId := userId,
                    actionType := "retrieval", itemId := itemId,
                    fromContainer := containerIdOf item, toContainer := none,
                    details := "Retrieved item " ++ item.name }] := by
  have hpf : ∀ a : DBItem, (decide (a.id = itemId)) = true →
      (decide ((retrieveUpdate a).id = itemId)) = true := by
    intro a ha
    exact ha
  refine ⟨?_, ?_, ?_, ?_⟩
  · unfold retrieveItem
    rw [hfind]
  · show ((retrieveItem db itemId userId (some t)).2.items.find?
      (fun i => i.id = itemId)) = some (retrieveUpdate item)
    unfold retrieveItem
    rw [hfind]
    dsimp only
    exact find?_updateFirstBy hpf hfind
  · intro x hx hne
    unfold retrieveItem
    rw [hfind]
    dsimp only
    exact mem_updateFirstBy_of_neg hx (by simp [hne])
  · unfold retrieveItem
    rw [hfind]

/-- Witness for `retrieve_item_effects`: retrieving the placed depleted
item updates its row (uses stay 0, waste set, placement cleared) and
appends the retrieval log. -/
theorem retrieve_item_effects_witness :
    (retrieveItem depletedScenario "U" "usr" (some 3)).1 = true ∧
    (retrieveItem depletedScenario "U" "usr" (some 3)).2.items.find?
        (fun i => i.id = "U") =
      some { depletedItem with
             remainingUses := if depletedItem.remainingUses > 0
               then depletedItem.remainingUses - 1
               else depletedItem.remainingUses,
             isWaste := if (if depletedItem.remainingUses > 0
               then depletedItem.remainingUses - 1
               else depletedItem.remainingUses) = 0
               then true else depletedItem.isWaste,
             placement := none } ∧
    (retrieveItem depletedScenario "U" "usr" (some 3)).2.logs =
      depletedScenario.logs ++
        [{ timestamp := 3, userId := "usr", actionType := "retrieval",
           itemId := "U", fromContainer := containerIdOf depletedItem,
           toContainer := none,
           details := "Retrieved item " ++ depletedItem.name }] := by
  have h := retrieve_item_effects depletedScenario "U" "usr" 3 depletedItem
    (by rfl)
  exact ⟨h.1, h.2.1, h.2.2.2⟩

/-- C10 (counterexample): placing the 10×10×10 item with endCoordinates −
startCoordinates = (5,5,5) succeeds, and the stored dimensions become
(5,5,5) — not a permutation of the base dimensions (10,10,10).  The place
endpoint never checks that `end − start` is an orientation of the item. -/
theorem place_overwrites_dimensions :
    (placeItem placeScenario "I" "usr" (some 0) "C" shrinkPosition).1 = true ∧
    ((placeItem placeScenario "I" "usr" (some 0) "C" shrinkPosition).2.items.find?
      (fun i => i.id = "I")).map (fun i => (i.width, i.depth, i.height)) =
      some (5, 5, 5) ∧
    (cubeItem.width, cubeItem.depth, cubeItem.height) = (10, 10, 10) ∧
    isPermTriple (5, 5, 5) (10, 10, 10) = false := by
  refine ⟨by rfl, by rfl, by decide, by decide⟩

/-- C10 (amended): a successful place requires the requested box to lie
inside the container and to overlap no other stored item, and then
overwrites the item's stored dimensions with `endCoordinates −
startCoordinates` and its placement with the start coordinates — without
requiring `end − start` to be a permutation of the base dimensions. -/
theorem place_item_effects (db : DB) (itemId userId : String) (t : Int)
    (containerId : String) (pos : Position) (db2 : DB)
    (h : placeItem db itemId userId (some t) containerId pos = (true, db2)) :
    ∃ item cont, db.items.find? (fun i => i.id = itemId) = some item ∧
      db.containers.find? (fun c => c.id = containerId) = some cont ∧
      0 ≤ pos.startCoordinates.width ∧ 0 ≤ pos.startCoordinates.depth ∧
      0 ≤ pos.startCoordinates.height ∧
      pos.endCoordinates.width ≤ cont.width ∧
      pos.endCoordinates.depth ≤ cont.depth ∧
      pos.endCoordinates.height ≤ cont.height ∧
      db.items.filter (overlapsRequested containerId itemId pos) = [] ∧
      db2.items.find? (fun i => i.id = itemId) =
        some { item with
               placement := some { containerId := containerId,
                                   posW := pos.startCoordinates.width,
                                   posD := pos.startCoordinates.depth,
                                   posH := pos.startCoordinates.height },
               width := pos.endCoordinates.width - pos.startCoordinates.width,
               depth := pos.endCoordinates.depth - pos.startCoordinates.depth,
               height := pos.endCoordinates.height - pos.startCoordinates.height } := by
  unfold placeItem at h
  cases hfi : db.items.find? (fun i => i.id = itemId) with
  | none =>
    rw [hfi] at h
    simp at h
  | some item =>
    rw [hfi] at h
    dsimp only at h
    cases hfc : db.containers.find? (fun c => c.id = containerId) with
    | none =>
      rw [hfc] at h
      simp at h
    | some cont =>
      rw [hfc] at h
      dsimp only at h
      by_cases hb : pos.startCoordinates.width < 0 ∨ pos.startCoordinates.depth < 0 ∨
          pos.startCoordinates.height < 0 ∨
          pos.endCoordinates.width > cont.width ∨
          pos.endCoordinates.depth > cont.depth ∨
          pos.endCoordinates.height > cont.height
      · rw [if_pos hb] at h
        simp at h
      · rw [if_neg hb] at h
        push_neg at hb
        by_cases hov : db.items.filter (overlapsRequested containerId itemId pos) = []
        · rw [if_neg (by simpa using hov)] at h
          simp only [Prod.mk.injEq] at h
          refine ⟨item, cont, rfl, rfl, hb.1, hb.2.1, hb.2.2.1, hb.2.2.2.1,
            hb.2.2.2.2.1, hb.2.2.2.2.2, hov, ?_⟩
          rw [← h.2]
          dsimp only
          exact @find?_updateFirstBy DBItem (fun i => i.id = itemId)
            (placeUpdate containerId pos) (fun a ha => ha) db.items item hfi
        · rw [if_pos (by simpa using hov)] at h
          simp at h

/-- Witness for `place_item_effects` at the concrete shrink request: the
stored row ends up with the start position and the dimensions
endCoordinates − startCoordinates = (5,5,5). -/
theorem place_item_effects_witness :
    (placeItem placeScenario "I" "usr" (some 0) "C" shrinkPosition).2.items.find?
        (fun i => i.id = "I") =
      some { cubeItem with
             placement := some { containerId := "C", posW := 0, posD := 0,
                                 posH := 0 },
             width := 5, depth := 5, height := 5 } := by
  obtain ⟨item, cont, hfi, hfc, h1, h2, h3, h4, h5, h6, hov, hfind⟩ :=
    place_item_effects placeScenario "I" "usr" 0 "C" shrinkPosition
      (placeItem placeScenario "I" "usr" (some 0) "C" shrinkPosition).2 (by rfl)
  have hitem : item = cubeItem := by
    have h := hfi
    rw [show placeScenario.items.find? (fun i => i.id = "I") = some cubeItem
      from rfl] at h
    exact (Option.some.inj h).symm
  rw [hfind, hitem]
  rfl

/-- C8: across any sequence of simulation and retrieval operations, every
item row evolves pointwise — its id is stable, a non-negative
remaining-uses count never becomes negative, and the waste flag never
reverts from true to false. -/
theorem lifecycle_invariants (db : DB) (ops : List CoreOp) :
    List.Forall₂ itemEvolves db.items (applyCoreOps db ops).items ∧
    ((∀ i ∈ db.items, 0 ≤ i.remainingUses) →
      ∀ j ∈ (applyCoreOps db ops).items, 0 ≤ j.remainingUses) ∧
    (∀ (k : Nat) (a b : DBItem), db.items[k]? = some a →
      (applyCoreOps db ops).items[k]? = some b →
      a.isWaste = true → b.isWaste = true) := by
  have hmain : List.Forall₂ itemEvolves db.items (applyCoreOps db ops).items := by
    unfold applyCoreOps
    induction ops generalizing db with
    | nil => exact forall2_evolves_refl _
    | cons op ops ih =>
      rw [List.foldl_cons]
      exact forall2_evolves_trans (applyCoreOp_evolves db op) (ih (applyCoreOp db op))
  refine ⟨hmain, ?_, ?_⟩
  · intro h0 j hj
    obtain ⟨a, ha, hev⟩ := forall2_exists_left hmain j hj
    exact hev.2.1 (h0 a ha)
  · intro k a b ha hb hw
    exact (forall2_get? hmain k a b ha hb).2.2 hw

/-- Witness for `lifecycle_invariants`: after retrieving the depleted item,
every remaining-uses count is still non-negative. -/
theorem lifecycle_invariants_witness :
    ((applyCoreOps depletedScenario
      [CoreOp.retrieveOp "U" "usr" (some 0)]).items.all
        (fun j => 0 ≤ j.remainingUses)) = true := by
  rw [List.all_eq_true]
  intro j hj
  exact decide_eq_true ((lifecycle_invariants depletedScenario
    [CoreOp.retrieveOp "U" "usr" (some 0)]).2.1 (by decide) j hj)

/-- C7: for every return-plan request with a well-formed undocking date
that names an existing undocking container, the selection equals the
greedy knapsack: the plan's item ids, the manifest entries and both totals
are exactly those of the greedy scan of the waste items sorted by mass
descending under the `maxWeight` mass cap and the undocking container's
interior volume, where an excluded item does not stop the scan; the
scanned list is mass-antitone and a permutation of the waste rows. -/
theorem return_plan_greedy (db : DB) (ucid : String) (d : Int)
    (maxWeight : Rat) (uc : DBContainer)
    (hc : db.containers.find? (fun c => c.id = ucid) = some uc) :
    ((createReturnPlan db ucid (some d) maxWeight).1.map (fun s => s.itemId) =
      (greedyKnapsack maxWeight ((uc.width * uc.depth * uc.height : Int) : Rat)
        (sortedWasteOf db) 0 0).map (fun i => i.id)) ∧
    ((createReturnPlan db ucid (some d) maxWeight).2.2.returnItems =
      (greedyKnapsack maxWeight ((uc.width * uc.depth * uc.height : Int) : Rat)
        (sortedWasteOf db) 0 0).map (fun i =>
          ({ itemId := i.id, name := i.name, reason := "Waste" } :
            ReturnManifestItem))) ∧
    ((createReturnPlan db ucid (some d) maxWeight).2.2.totalVolume =
      ((greedyKnapsack maxWeight ((uc.width * uc.depth * uc.height : Int) : Rat)
        (sortedWasteOf db) 0 0).map itemVolume).sum) ∧
    ((createReturnPlan db ucid (some d) maxWeight).2.2.totalWeight =
      ((greedyKnapsack maxWeight ((uc.width * uc.depth * uc.height : Int) : Rat)
        (sortedWasteOf db) 0 0).map (fun i => i.mass)).sum) ∧
    (sortedWasteOf db).Pairwise (fun a b => b.mass ≤ a.mass) ∧
    (sortedWasteOf db).Perm (db.items.filter (fun i => i.isWaste)) := by
  by_cases hne : (db.items.filter (fun i => i.isWaste)).isEmpty = true
  · have hnil : db.items.filter (fun i => i.isWaste) = [] :=
      List.isEmpty_iff.mp hne
    have hsw : sortedWasteOf db = [] := by
      unfold sortedWasteOf
      rw [hnil]
      rfl
    unfold createReturnPlan
    rw [hc]
    dsimp only
    rw [if_pos hne]
    rw [hsw, hnil]
    simp [greedyKnapsack]
  · have hfold := foldl_returnPlanFold_greedy db ucid maxWeight
      ((uc.width * uc.depth * uc.height : Int) : Rat) (sortedWasteOf db)
      ([], [], [], 0, 0, 1)
    obtain ⟨h1, h2, h3, h4⟩ := hfold
    dsimp only at h1 h2 h3 h4
    simp only [List.map_nil, List.nil_append] at h1 h2
    rw [zero_add] at h3 h4
    unfold createReturnPlan
    rw [hc]
    dsimp only
    rw [if_neg hne]
    dsimp only
    exact ⟨h1, h2, h3, h4, List.sorted_insertionSort _ _,
      List.perm_insertionSort _ _⟩

/-- The return-plan scenario of spec §8.6 evaluated: the undocking
container `U` exists, and the greedy selection keeps only M₂ (manifest
entry, total volume 100, total weight 8): M₂ fits (8 ≤ 10, 100 ≤ 150) and
M₁ is then skipped (8 + 5 > 10). -/
theorem return_plan_greedy_witness :
    wasteScenario.containers.find? (fun c => c.id = "U") =
      some ⟨"U", "Z", 5, 5, 6⟩ ∧
    (createReturnPlan wasteScenario "U" (some 0) 10).2.2.returnItems =
      [{ itemId := "M2", name := "m2", reason := "Waste" }] ∧
    (createReturnPlan wasteScenario "U" (some 0) 10).2.2.totalVolume = 100 ∧
    (createReturnPlan wasteScenario "U" (some 0) 10).2.2.totalWeight = 8 := by
  have h := return_plan_greedy wasteScenario "U" 0 10 ⟨"U", "Z", 5, 5, 6⟩ rfl
  obtain ⟨-, h2, h3, h4, -, -⟩ := h
  refine ⟨rfl, ?_, ?_, ?_⟩
  · rw [h2]
    norm_num [sortedWasteOf, wasteScenario, wasteM1, wasteM2, greedyKnapsack,
      itemVolume, List.insertionSort, List.orderedInsert, List.filter]
  · rw [h3]
    norm_num [sortedWasteOf, wasteScenario, wasteM1, wasteM2, greedyKnapsack,
      itemVolume, List.insertionSort, List.orderedInsert, List.filter]
  · rw [h4]
    norm_num [sortedWasteOf, wasteScenario, wasteM1, wasteM2, greedyKnapsack,
      itemVolume, List.insertionSort, List.orderedInsert, List.filter]

end StowCore
